import Mathlib

/-!
Verification of the Langchain_Agent repository's orchestration and
retrieval-fusion core against its natural-language specification.

The Python source is shallowly embedded: every definition below mirrors a
function of the repository (file and symbol given in each doc comment).
Python dicts are modelled as insertion-ordered association lists, floats as
rationals, database tables and external services (vector store, SQL engine,
LLM) as explicit inputs or oracle functions, and raised exceptions as
`Option`/explicit error results.
-/

namespace LangchainAgent

/-! ## Python string primitives

`str.lower` / `str.strip` / slicing are modelled over the underlying
character sequence (ASCII case folding, ASCII whitespace). -/

/-- ASCII case folding of one character (model of Python `str.lower` per char). -/
def charLower (c : Char) : Char :=
  if 'A' ≤ c ∧ c ≤ 'Z' then Char.ofNat (c.toNat + 32) else c

/-- Model of Python `str.lower`. -/
def pyLower (s : String) : String := ⟨s.data.map charLower⟩

/-- ASCII whitespace recognizer used by the model of Python `str.strip`. -/
def isPySpace (c : Char) : Bool :=
  c = ' ' ∨ c = '\t' ∨ c = '\n' ∨ c = '\r' ∨ c = '\x0b' ∨ c = '\x0c'

/-- Model of Python `str.strip` (both ends). -/
def pyStrip (s : String) : String :=
  ⟨((s.data.dropWhile isPySpace).reverse.dropWhile isPySpace).reverse⟩

/-- Model of Python slicing `s[:n]` (by code point). -/
def pyTake (n : ℕ) (s : String) : String := ⟨s.data.take n⟩

/-- `needle` occurs as a contiguous substring of `hay` (model of Python `in` /
SQL `LIKE CONCAT(CHAR(37), kw, CHAR(37))`). -/
def containsSub (hay needle : List Char) : Bool :=
  hay.tails.any (fun t => needle.isPrefixOf t)

/-! ## Candidate records (src/graph/student_workflow.py, src/tools/new_search_tools.py)

A `Cand` is the dictionary shape produced by the three recall tracks and
mutated by `rerank_node`'s merge step.  The `title` key may in principle be
absent (`rerank_node` checks `"title" not in data`), hence `Option`.  The
`semantic_score` / `keyword_score` keys are only ever written by the merge
step, hence they default to `none` in track output. -/

structure Cand where
  id : ℕ
  title : Option String := none
  status : String := ""
  description : String := ""
  score : ℚ := 0
  match_type : String := ""
  source : String := ""
  semantic_score : Option ℚ := none
  keyword_score : Option ℚ := none
deriving DecidableEq, Repr

/-- First-match lookup in an insertion-ordered association list (Python
`d[k]` / `k in d`). -/
def assocLookup {κ ν : Type} [DecidableEq κ] (m : List (κ × ν)) (k : κ) : Option ν :=
  match m with
  | [] => none
  | kv :: m => if kv.1 = k then some kv.2 else assocLookup m k

/-- Insertion-ordered dict keyed by project id (Python `candidates` dict). -/
abbrev CandDict := List (ℕ × Cand)

/-- Update the value stored at key `k` in place (Python `d[k]["f"] = v`
keeps the key's insertion position). -/
def dictSet (m : CandDict) (k : ℕ) (f : Cand → Cand) : CandDict :=
  m.map fun kv => if kv.1 = k then (kv.1, f kv.2) else kv

/-- One iteration of the `merge` inner loop of `rerank_node`
(src/graph/student_workflow.py:125-136): insert a first-seen id, otherwise
record the semantic/keyword partial score on the existing record. -/
def mergeOne (source_name : String) (m : CandDict) (p : Cand) : CandDict :=
  if (assocLookup m p.id).isSome then
    if source_name = "semantic" then
      dictSet m p.id fun c => { c with semantic_score := some p.score }
    else if source_name = "keyword" then
      dictSet m p.id fun c => { c with keyword_score := some p.score }
    else m
  else m ++ [(p.id, p)]

/-- `merge(source_list, source_name)` of `rerank_node`. -/
def merge (m : CandDict) (source_list : List Cand) (source_name : String) : CandDict :=
  source_list.foldl (mergeOne source_name) m

/-- The three `merge` calls of `rerank_node`
(src/graph/student_workflow.py:138-140). -/
def mergedCandidates (tag_candidates semantic_candidates keyword_candidates : List Cand) :
    CandDict :=
  merge (merge (merge [] tag_candidates "tag") semantic_candidates "semantic")
    keyword_candidates "keyword"

/-- `tag_score` as read in the scoring loop (src/graph/student_workflow.py:148). -/
def tagScoreOf (data : Cand) : ℚ :=
  if data.source = "tag" then data.score else 0

/-- `semantic_score` as read in the scoring loop (line 149). -/
def semanticScoreOf (data : Cand) : ℚ :=
  if data.source = "semantic" then data.score else data.semantic_score.getD 0

/-- `keyword_score` as read in the scoring loop (line 150). -/
def keywordScoreOf (data : Cand) : ℚ :=
  if data.source = "keyword" then data.score else data.keyword_score.getD 0

/-- `final_score` — the weighted sum of src/graph/student_workflow.py:153. -/
def final_score (data : Cand) : ℚ :=
  tagScoreOf data * 0.4 + semanticScoreOf data * 0.4 + keywordScoreOf data * 0.2

/-- The content signature of src/graph/student_workflow.py:162-165:
`f"{title.lower()}_{desc[:100].lower()}"` over stripped title/description. -/
def contentSignature (title desc : String) : String :=
  pyLower (pyStrip title) ++ "_" ++ pyLower (pyTake 100 (pyStrip desc))

/-- Signature of a candidate record (`data.get('title','')` after the
`"title" not in data` guard, `data.get('description','')`). -/
def candSignature (t : String) (data : Cand) : String :=
  contentSignature t data.description

/-- Insertion-ordered dict keyed by content signature (Python `unique_map`). -/
abbrev SigDict := List (String × Cand)

/-- Replace the value at key `k` (Python dict assignment, position kept). -/
def sigSet (um : SigDict) (k : String) (v : Cand) : SigDict :=
  um.map fun kv => if kv.1 = k then (kv.1, v) else kv

/-- One iteration of the dedup loop of `rerank_node`
(src/graph/student_workflow.py:147-174): skip records without a title,
otherwise keep, per signature, the record with the strictly higher
`final_score` (the earlier record wins ties). -/
def dedupStep (um : SigDict) (data : Cand) : SigDict :=
  match data.title with
  | none => um
  | some t =>
    let sig := candSignature t data
    match assocLookup um sig with
    | some existing =>
      if final_score data > final_score existing then sigSet um sig data else um
    | none => um ++ [(sig, data)]

/-- The full dedup fold (`unique_map` after the loop). -/
def unique_map (cands : List Cand) : SigDict :=
  cands.foldl dedupStep []

/-- `candidates_list.sort(key=lambda x: x["final_score"], reverse=True)` —
Python's `list.sort` is a stable sort; stable sorting by a key is a function
of the input list, so any stable sort models it exactly.  We use insertion
sort with the descending-by-`final_score` relation. -/
def sortByFinalScoreDesc (l : List Cand) : List Cand :=
  l.insertionSort (fun a b => final_score b ≤ final_score a)

/-- `rerank_node` (src/graph/student_workflow.py:116-180): merge the three
track candidate lists, deduplicate by content signature, sort by fused
score descending, return the top 15. -/
def rerank_node (tag_candidates semantic_candidates keyword_candidates : List Cand) :
    List Cand :=
  let candidates := mergedCandidates tag_candidates semantic_candidates keyword_candidates
  let candidates_list := (unique_map (candidates.map Prod.snd)).map Prod.snd
  (sortByFinalScoreDesc candidates_list).take 15

/-- `track_tag_recall` tagging step (src/graph/student_workflow.py:93):
`for p in results: p["source"] = "tag"`. -/
def track_tag_recall (results : List Cand) : List Cand :=
  results.map fun p => { p with source := "tag" }

/-- `track_semantic_recall` tagging step (src/graph/student_workflow.py:103). -/
def track_semantic_recall (results : List Cand) : List Cand :=
  results.map fun p => { p with source := "semantic" }

/-- `track_keyword_recall` tagging step (src/graph/student_workflow.py:113). -/
def track_keyword_recall (results : List Cand) : List Cand :=
  results.map fun p => { p with source := "keyword" }

/-- The per-track score of an entity as seen by the fusion step: the `score`
field of the first record with that id in the track's output, 0 if the
entity is absent from the track. -/
def trackScore (ps : List Cand) (pid : ℕ) : ℚ :=
  ((ps.find? (fun p => p.id == pid)).map Cand.score).getD 0

/-- Per-signature projection of one dedup-loop iteration: among the records
with signature `s`, keep the strictly better record, the earlier one on a
tie (the `final_score data > final_score existing` test of
src/graph/student_workflow.py:171). -/
def survStep (s : String) (acc : Option Cand) (data : Cand) : Option Cand :=
  match data.title with
  | none => acc
  | some t =>
    if candSignature t data = s then
      match acc with
      | none => some data
      | some w => if final_score data > final_score w then some data else some w
    else acc

/-- The record that survives deduplication at signature `s`: the
first-encountered maximal-`final_score` record with that signature. -/
def dedupSurvivor (cands : List Cand) (s : String) : Option Cand :=
  cands.foldl (survStep s) none

/-- The fused candidate records, in dict insertion order
(`candidates.items()` of `rerank_node`). -/
def fusedValues (tag_candidates semantic_candidates keyword_candidates : List Cand) :
    List Cand :=
  (mergedCandidates tag_candidates semantic_candidates keyword_candidates).map Prod.snd

/-- Concrete tag-track record (occurrence score 2) used by witnesses. -/
def wTag : Cand :=
  { id := 1, title := some "Robot", status := "in_progress",
    description := "D", score := 2, match_type := "tag" }

/-- `wTag` after `track_tag_recall` labels its source. -/
def wTagS : Cand := { wTag with source := "tag" }

/-! ## Relational data model (src/tools/new_search_tools.py)

The MySQL tables touched by the three recall tools.  `project_requirement`
has primary key `id`; the tag join tables hold `(requirement_id, tag_id)`
pairs.  SQL result-set order is modelled as table order (the queries carry
no ORDER BY except where noted). -/

structure ReqRow where
  id : ℕ
  title : String := ""
  status : String := ""
  description : String := ""
deriving DecidableEq, Repr

/-- The status allow-list appearing in all three queries:
`status IN ('under_review', 'in_progress', 'completed')`. -/
def allowedStatus (s : String) : Bool :=
  s = "under_review" ∨ s = "in_progress" ∨ s = "completed"

structure TagDB where
  project_requirement : List ReqRow := []
  project_requirement_tag1 : List (ℕ × ℕ) := []
  project_requirement_tag2 : List (ℕ × ℕ) := []
deriving DecidableEq, Repr

/-- Result set of the tag-track join
(`SELECT r.* FROM project_requirement r JOIN <tagTable> rt ON r.id =
rt.requirement_id WHERE rt.tag_id IN (<ids>) AND r.status IN (...)`):
one row per join-table pair whose tag is among the supplied ids and whose
requirement exists with an allowed status (`id` is the primary key of
`project_requirement`, hence `find?`). -/
def tagJoinRows (reqs : List ReqRow) (pairs : List (ℕ × ℕ)) (ids : List ℕ) : List ReqRow :=
  pairs.filterMap fun pr =>
    if pr.2 ∈ ids then
      match reqs.find? (fun r => r.id == pr.1) with
      | some r => if allowedStatus r.status then some r else none
      | none => none
    else none

/-- The candidate record inserted for a first-seen id by
`search_projects_by_tags` (score 0.0, before the increment). -/
def freshTagCand (row : ReqRow) : Cand :=
  { id := row.id, title := some row.title, status := row.status,
    description := row.description, score := 0, match_type := "tag" }

/-- One row of the `search_projects_by_tags` accumulation loop
(src/tools/new_search_tools.py:36-47 and 61-72): insert a first-seen id
with score 0.0, then `candidates[pid]["score"] += 1.0` — once per row. -/
def tagRowStep (cands : CandDict) (row : ReqRow) : CandDict :=
  let cands :=
    if (assocLookup cands row.id).isSome then cands
    else cands ++ [(row.id, freshTagCand row)]
  dictSet cands row.id fun c => { c with score := c.score + 1 }

/-- Number of result rows mentioning entity `pid`. -/
def countRows (rows : List ReqRow) (pid : ℕ) : ℕ :=
  rows.countP fun r => r.id == pid

/-- Add `n` row-increments to a candidate's score. -/
def bumpScore (c : Cand) (n : ℕ) : Cand := { c with score := c.score + n }

/-- `search_projects_by_tags` (src/tools/new_search_tools.py:10-82): run the
interest (tag1) and skill (tag2) joins, count one point per returned row
per entity, sort by score descending (Python `sorted` is stable) and keep
the top 20. -/
def search_projects_by_tags (db : TagDB) (interest_ids skill_ids : List ℕ) : List Cand :=
  let cands : CandDict := []
  let cands :=
    if interest_ids ≠ [] then
      (tagJoinRows db.project_requirement db.project_requirement_tag1 interest_ids).foldl
        tagRowStep cands
    else cands
  let cands :=
    if skill_ids ≠ [] then
      (tagJoinRows db.project_requirement db.project_requirement_tag2 skill_ids).foldl
        tagRowStep cands
    else cands
  ((cands.map Prod.snd).insertionSort fun a b => Cand.score b ≤ Cand.score a).take 20

/-- Requirement row used by the C4 counterexample database. -/
def ctReq (k : ℕ) : ReqRow :=
  { id := k, title := "t", status := "in_progress", description := "" }

/-- C4 counterexample database: six distinct requirements all tagged with
interest id 1, requirement 6 via a duplicated join-table row. -/
def ctDB : TagDB :=
  { project_requirement := [ctReq 1, ctReq 2, ctReq 3, ctReq 4, ctReq 5, ctReq 6],
    project_requirement_tag1 := [(1, 1), (2, 1), (3, 1), (4, 1), (5, 1), (6, 1), (6, 1)],
    project_requirement_tag2 := [] }

/-- The candidate record `search_projects_by_tags` accumulates for
requirement `k` of `ctDB` after one row (score `0.0 + 1.0`). -/
def ctCand (k : ℕ) : Cand :=
  { id := k, title := some "t", status := "in_progress", description := "",
    score := 0 + 1, match_type := "tag" }

/-- The record accumulated for requirement 6 of `ctDB`: two join rows, two
increments. -/
def ctCand6 : Cand :=
  { id := 6, title := some "t", status := "in_progress", description := "",
    score := 0 + 1 + 1, match_type := "tag" }

/-- Duplicate-free single-tag database used by the C4 amended-claim witness. -/
def wTagDB : TagDB :=
  { project_requirement := [ctReq 1],
    project_requirement_tag1 := [(1, 1)],
    project_requirement_tag2 := [] }

/-! ## `search_projects_semantic` (src/tools/new_search_tools.py:84-142) -/

/-- A document returned by the Milvus store: metadata may carry the entity id
under `project_id` or `id`. -/
structure SemDoc where
  project_id : Option ℕ := none
  meta_id : Option ℕ := none
  content : String := ""
deriving DecidableEq, Repr

/-- Python truthiness on an optional integer (`None` and `0` are falsy). -/
def truthyNat : Option ℕ → Option ℕ
  | some 0 => none
  | o => o

/-- `pid = meta.get("project_id") or meta.get("id")` followed by `if pid:`
(src/tools/new_search_tools.py:101-102). -/
def resolvePid (d : SemDoc) : Option ℕ :=
  (truthyNat d.project_id).or (truthyNat d.meta_id)

/-- Python dict assignment `d[k] = v`: overwrite in place, else append. -/
def dictAssign {κ ν : Type} [DecidableEq κ] (m : List (κ × ν)) (k : κ) (v : ν) :
    List (κ × ν) :=
  if (assocLookup m k).isSome then m.map fun kv => if kv.1 = k then (kv.1, v) else kv
  else m ++ [(k, v)]

/-- The `k` passed to `store.similarity_search_with_score` at
src/tools/new_search_tools.py:96 (the tool signature takes no `k`; the
caller's extra `"k": 5` argument is discarded by the tool's input schema). -/
def semanticSearchK : ℕ := 20

/-- `search_projects_semantic`: similarity-search the `project_embeddings`
collection for the top `semanticSearchK` documents, resolve their entity
ids (`milvus_matches[pid]` overwrites on duplicates), hydrate
title/status/description from `project_requirement` restricted to the
status allow-list, and keep only hydrated entities — a vector hit absent
from the relational fetch is dropped without error. -/
def milvusMatches (docs : List (SemDoc × ℚ)) : List (ℕ × (ℚ × String)) :=
  docs.foldl (fun m ds =>
    match resolvePid ds.1 with
    | some pid => dictAssign m pid (ds.2, ds.1.content)
    | none => m) []

def search_projects_semantic (store : String → ℕ → List (SemDoc × ℚ))
    (reqs : List ReqRow) (query : String) : List Cand :=
  let docs := store query semanticSearchK
  let milvus : List (ℕ × (ℚ × String)) := milvusMatches docs
  let project_ids : List ℕ := docs.filterMap fun ds => resolvePid ds.1
  if project_ids = [] then []
  else
    let rows := reqs.filter fun r => decide (r.id ∈ project_ids) && allowedStatus r.status
    rows.filterMap fun r =>
      (assocLookup milvus r.id).map fun sc =>
        { id := r.id, title := some r.title, status := r.status,
          description := r.description, score := sc.1, match_type := "semantic" }

/-- Requirement row used in the C3 counterexample database. -/
def ftReq (k : ℕ) (t : String) : ReqRow :=
  { id := k, title := t, status := "in_progress", description := "" }

/-- C5 counterexample store: the vector index returns six scored documents
regardless of the requested `k`. -/
def semDocs : List (SemDoc × ℚ) :=
  [({ project_id := some 1 }, 9), ({ project_id := some 2 }, 8),
   ({ project_id := some 3 }, 7), ({ project_id := some 4 }, 6),
   ({ project_id := some 5 }, 5), ({ project_id := some 6 }, 4)]

def semStoreEx : String → ℕ → List (SemDoc × ℚ) := fun _ _ => semDocs

/-- C5 counterexample relational table: six allowed requirements. -/
def semReqs : List ReqRow :=
  [ftReq 1 "p1", ftReq 2 "p2", ftReq 3 "p3", ftReq 4 "p4", ftReq 5 "p5", ftReq 6 "p6"]

/-- The top candidate of the C5 concrete run. -/
def semTopCand : Cand :=
  { id := 1, title := some "p1", status := "in_progress",
    description := "", score := 9, match_type := "semantic" }

/-! ## `search_projects_fulltext` (src/tools/new_search_tools.py:144-214) -/

/-- A row of the fulltext query's result set: the relational columns plus
the engine-computed relevance (`MATCH ... AGAINST ... as score`); the
optional `match_type` key is only set by the LIKE fallback. -/
structure SqlRow where
  id : ℕ
  title : String := ""
  status : String := ""
  description : String := ""
  score : ℚ := 0
  match_type : Option String := none
deriving DecidableEq, Repr

/-- Result set of the boolean-mode fulltext query: rows the engine matches
(`ft` is the engine's relevance oracle over the space-joined keyword
query), status-filtered, `ORDER BY score DESC` (ties in table order),
`LIMIT 20`. -/
def fulltextRows (ft : String → ReqRow → Option ℚ) (reqs : List ReqRow)
    (search_query : String) : List SqlRow :=
  (((reqs.filterMap fun r =>
      match ft search_query r with
      | some s =>
        if allowedStatus r.status then
          some ({ id := r.id, title := r.title, status := r.status,
                  description := r.description, score := s } : SqlRow)
        else none
      | none => none).insertionSort fun a b => SqlRow.score b ≤ SqlRow.score a)).take 20

/-- Result set of the LIKE fallback query: any keyword occurring as a
substring of title or description, status-filtered, no ORDER BY,
`LIMIT 20`, constant score `1.0`, `match_type = 'like_fallback'`. -/
def likeRows (reqs : List ReqRow) (keywords : List String) : List SqlRow :=
  ((reqs.filter fun r =>
    (keywords.any fun k =>
      containsSub r.title.data k.data || containsSub r.description.data k.data) &&
      allowedStatus r.status).take 20).map fun r =>
    { id := r.id, title := r.title, status := r.status, description := r.description,
      score := 1, match_type := some "like_fallback" }

/-- `search_projects_fulltext`: boolean-mode fulltext search over the
space-joined keywords, falling back to the LIKE scan when the fulltext
query returns no rows; each result keeps the engine relevance (or the
constant 1.0 of the fallback) as its score. -/
def search_projects_fulltext (ft : String → ReqRow → Option ℚ) (reqs : List ReqRow)
    (keywords : List String) : List Cand :=
  if keywords = [] then []
  else
    let search_query := String.intercalate " " keywords
    let rows := fulltextRows ft reqs search_query
    let rows := if rows = [] then likeRows reqs keywords else rows
    rows.map fun row =>
      { id := row.id, title := some row.title, status := row.status,
        description := row.description, score := row.score,
        match_type := row.match_type.getD "fulltext" }

/-- The claim's scoring rule, stated from the spec's words for comparison:
the count of distinct supplied keywords whose lowercase form occurs as a
substring of the concatenated title+description. -/
def claimKeywordScore (keywords : List String) (title desc : String) : ℕ :=
  (keywords.dedup.filter fun k => containsSub (title ++ desc).data (pyLower k).data).length

/-- The top candidate of the C3 concrete run. -/
def ftTopCand : Cand :=
  { id := 1, title := some "robot one", status := "in_progress",
    description := "", score := 6, match_type := "fulltext" }

/-- C3 counterexample table: six fulltext-matching requirements. -/
def ftReqs : List ReqRow :=
  [ftReq 1 "robot one", ftReq 2 "robot two", ftReq 3 "robot three",
   ftReq 4 "robot four", ftReq 5 "robot five", ftReq 6 "robot six"]

/-- C3 counterexample relevance oracle: the engine reports graded relevance
scores (6 down to 1), unrelated to substring counts. -/
def ftOracle : String → ReqRow → Option ℚ := fun _ r =>
  if r.id = 1 then some 6
  else if r.id = 2 then some 5
  else if r.id = 3 then some 4
  else if r.id = 4 then some 3
  else if r.id = 5 then some 2
  else if r.id = 6 then some 1
  else none

/-! ## Router (src/graph/main_agent.py:147-208, the effective `router_node`)

The classifier call and `json.loads` are oracles: `LLMOutcome` is the model
response (or an exception anywhere in the `try` block), `ParsedRouter` the
parse of the extracted JSON block (`.exc` covers `json.loads` raising as
well as non-dict / non-string shapes that would raise on `.get`/`.upper()`;
classifier payloads are modelled with a string `intent` and an integer
`target_id`, per the router prompt's output contract). -/

inductive LLMOutcome where
  | exc
  | ok (content : String)
deriving DecidableEq, Repr

inductive ParsedRouter where
  | exc
  | ok (intent : Option String) (target_id : Option ℤ)
deriving DecidableEq, Repr

/-- The partial state update a router run returns. -/
structure RouterResult where
  next_step : String
  target_project_id : Option ℤ := none
deriving DecidableEq, Repr

/-- ASCII upper-casing of one character (model of Python `str.upper`). -/
def charUpper (c : Char) : Char :=
  if 'a' ≤ c ∧ c ≤ 'z' then Char.ofNat (c.toNat - 32) else c

/-- Model of Python `str.upper`. -/
def pyUpper (s : String) : String := ⟨s.data.map charUpper⟩

/-- `re.search(r'\x7b.*\x7d', content, re.DOTALL)` — greedy: from the first
opening brace to the last closing brace, when the latter comes after the
former. -/
def jsonBlock (content : String) : Option String :=
  let cs := content.data
  match cs.findIdx? (fun c => c = '\x7b'), cs.reverse.findIdx? (fun c => c = '\x7d') with
  | some i, some jr =>
    let j := cs.length - 1 - jr
    if i ≤ j then some ⟨(cs.take (j + 1)).drop i⟩ else none
  | _, _ => none

/-- Single pass of the digit-run scan: `cur` is the reversed current run of
digits; a maximal run of length at least 3 ending here is the leftmost
match. -/
def findRun (cur : List Char) : List Char → Option (List Char)
  | [] => if 3 ≤ cur.length then some cur.reverse else none
  | c :: rest =>
    if c.isDigit then findRun (c :: cur) rest
    else if 3 ≤ cur.length then some cur.reverse
    else findRun [] rest

/-- `re.search(r'(\d\x7b3,\x7d)', msg)`: the leftmost maximal run of at
least three consecutive decimal digits. -/
def findDigitRun (cs : List Char) : Option (List Char) := findRun [] cs

/-- Python `int()` on a run of decimal digits. -/
def digitsToNat (run : List Char) : ℕ :=
  run.foldl (fun n c => n * 10 + (c.toNat - 48)) 0

/-- The keyword-marker fallback of src/graph/main_agent.py:187-190:
`if "RECOMMEND" in content ... elif "PROJECT_QA" in content ... else CHAT`
(the fallback dicts carry no `target_id`, so `result.get("target_id", 0)`
yields 0). -/
def kwFallbackIntent (content : String) : String × ℤ :=
  if containsSub content.data "RECOMMEND".data then ("RECOMMEND", 0)
  else if containsSub content.data "PROJECT_QA".data then ("PROJECT_QA", 0)
  else ("CHAT", 0)

/-- The shared dispatch tail of `router_node`
(src/graph/main_agent.py:192-206): regex id fallback for a PROJECT_QA
intent with falsy target id, then the three-way branch (`and target_id`
requires a nonzero id to enter the Q&A flow). -/
def dispatchCore (intent : String) (target_id : ℤ) : RouterResult :=
  if intent = "RECOMMEND" then { next_step := "recommendation_flow" }
  else if intent = "PROJECT_QA" ∧ ¬ target_id = 0 then
    { next_step := "project_qa_flow", target_project_id := some target_id }
  else { next_step := "chat_response" }

def routeDispatch (intent : String) (tid0 : ℤ) (last_user_msg : String) : RouterResult :=
  dispatchCore intent
    (if intent = "PROJECT_QA" ∧ tid0 = 0 then
      match findDigitRun last_user_msg.data with
      | some run => (digitsToNat run : ℤ)
      | none => tid0
    else tid0)

/-- `router_node` (src/graph/main_agent.py:147-208, the later — effective —
definition): classify, extract and parse the JSON block (a parse exception
hits the surrounding `except` and yields chat), otherwise apply the
keyword-marker fallback; any exception path resolves to `chat_response`. -/
def router_node (llm : LLMOutcome) (jparse : String → ParsedRouter)
    (last_user_msg : String) : RouterResult :=
  match llm with
  | .exc => { next_step := "chat_response" }
  | .ok content0 =>
    let content := pyStrip content0
    match jsonBlock content with
    | some json_str =>
      match jparse json_str with
      | .exc => { next_step := "chat_response" }
      | .ok intent? tid? =>
        routeDispatch (pyUpper (intent?.getD "CHAT")) (tid?.getD 0) last_user_msg
    | none =>
      let fb := kwFallbackIntent content
      routeDispatch (pyUpper fb.1) fb.2 last_user_msg

/-! ## `PickleRedisSaver` (src/core/persistence.py)

Redis is a string-keyed store; a stored value is either a plain string (the
latest pointer, `bytes.decode()` modelled as identity) or a pickled
`CheckpointTuple` blob (`pickle.loads` of a blob returns the tuple;
loading a non-blob value is modelled as no result). -/

structure Checkpoint (σ : Type) where
  id : String
  channel_values : σ
deriving DecidableEq

structure CheckpointTuple (σ μ : Type) where
  thread_id : String
  checkpoint_id : String
  checkpoint : Checkpoint σ
  metadata : μ
  parent_checkpoint_id : Option String
deriving DecidableEq

inductive RVal (σ μ : Type) where
  | rstr (s : String)
  | rblob (t : CheckpointTuple σ μ)
deriving DecidableEq

def Redis (σ μ : Type) := String → Option (RVal σ μ)

def redisSet {σ μ : Type} (db : Redis σ μ) (k : String) (v : RVal σ μ) : Redis σ μ :=
  fun q => if q = k then some v else db q

/-- `config["configurable"]` — thread id plus optional checkpoint id. -/
structure RunnableConfig where
  thread_id : String
  checkpoint_id : Option String := none
deriving DecidableEq

/-- Python truthiness on an optional string (`None` and `""` are falsy). -/
def truthyStr : Option String → Option String
  | some "" => none
  | o => o

/-- `PickleRedisSaver.put` (src/core/persistence.py:50-81): pickle the
tuple under `checkpoint:<thread>:<id>`, then point
`checkpoint_latest:<thread>` at the new id; returns the new config.
(`parent_config` is stored only for a truthy parent id.) -/
def PickleRedisSaver.put {σ μ : Type} (db : Redis σ μ) (config : RunnableConfig)
    (checkpoint : Checkpoint σ) (metadata : μ) : Redis σ μ × RunnableConfig :=
  let thread_id := config.thread_id
  let checkpoint_id := checkpoint.id
  let tuple_data : CheckpointTuple σ μ :=
    { thread_id := thread_id, checkpoint_id := checkpoint_id, checkpoint := checkpoint,
      metadata := metadata, parent_checkpoint_id := truthyStr config.checkpoint_id }
  let db := redisSet db ("checkpoint:" ++ thread_id ++ ":" ++ checkpoint_id)
    (.rblob tuple_data)
  let db := redisSet db ("checkpoint_latest:" ++ thread_id) (.rstr checkpoint_id)
  (db, { thread_id := thread_id, checkpoint_id := some checkpoint_id })

/-- `PickleRedisSaver.get_tuple` (src/core/persistence.py:23-44): a falsy
thread id returns nothing; a truthy checkpoint id reads its key directly;
otherwise resolve through the thread's latest pointer. -/
def PickleRedisSaver.get_tuple {σ μ : Type} (db : Redis σ μ) (config : RunnableConfig) :
    Option (CheckpointTuple σ μ) :=
  let thread_id := config.thread_id
  if thread_id = "" then none
  else
    match truthyStr config.checkpoint_id with
    | some checkpoint_id =>
      match db ("checkpoint:" ++ thread_id ++ ":" ++ checkpoint_id) with
      | some (.rblob t) => some t
      | _ => none
    | none =>
      match db ("checkpoint_latest:" ++ thread_id) with
      | some (.rstr latest_id) =>
        match db ("checkpoint:" ++ thread_id ++ ":" ++ latest_id) with
        | some (.rblob t) => some t
        | _ => none
      | _ => none

/-! ## Project Q&A retrieval (src/graph/main_agent.py:274-345,
src/tools/new_search_tools.py:216-280)

A Python value used as a dict key is an int or a string (`PyKey`); the
retrieval tools return dicts keyed by `str(pid)` while the Q&A node looks
up the integer `target_id`. -/

inductive PyKey where
  | pint (n : ℤ)
  | pstr (s : String)
deriving DecidableEq, Repr

structure RawDoc where
  project_id : Option ℤ := none
  meta_id : Option ℤ := none
  content : String := ""
deriving DecidableEq, Repr

/-- Python truthiness on an optional integer (`None` and `0` are falsy). -/
def truthyInt : Option ℤ → Option ℤ
  | some 0 => none
  | o => o

/-- `retrieve_project_chunks` (src/tools/new_search_tools.py:216-248):
collect matching chunk texts per requested id, then return the dict with
keys converted to `str(k)`. -/
def retrieve_project_chunks (store : String → ℕ → String → List RawDoc)
    (project_ids : List ℤ) (query : String) : List (PyKey × List String) :=
  if project_ids = [] then []
  else
    let temp_chunks : List (ℤ × List String) :=
      project_ids.foldl (fun m pid => dictAssign m pid []) []
    let expr := "project_id in " ++ toString project_ids
    let docs := store query 50 expr
    let temp_chunks := docs.foldl (fun m d =>
      match d.project_id with
      | some pid =>
        if (assocLookup m pid).isSome then
          m.map fun kv => if kv.1 = pid then (kv.1, kv.2 ++ [d.content]) else kv
        else m
      | none => m) temp_chunks
    temp_chunks.map fun kv => (PyKey.pstr (toString kv.1), kv.2)

/-- `retrieve_project_summary` (src/tools/new_search_tools.py:250-280):
like the chunk retrieval but over the summary collection (`k=10`), with
the id taken from `project_id` or `id` metadata (Python `or`), and the
same `str(k)` key conversion. -/
def retrieve_project_summary (store : String → ℕ → String → List RawDoc)
    (project_ids : List ℤ) (query : String) : List (PyKey × List String) :=
  if project_ids = [] then []
  else
    let temp_chunks : List (ℤ × List String) :=
      project_ids.foldl (fun m pid => dictAssign m pid []) []
    let expr := "project_id in " ++ toString project_ids
    let docs := store query 10 expr
    let temp_chunks := docs.foldl (fun m d =>
      match (truthyInt d.project_id).or (truthyInt d.meta_id) with
      | some pid =>
        if (assocLookup m pid).isSome then
          m.map fun kv => if kv.1 = pid then (kv.1, kv.2 ++ [d.content]) else kv
        else m
      | none => m) temp_chunks
    temp_chunks.map fun kv => (PyKey.pstr (toString kv.1), kv.2)

/-- The retrieval part of `project_qa_node` (src/graph/main_agent.py:323-345):
detailed documents first (`context_chunks.get(target_id, [])` — an
**integer** key against the string-keyed dict), summary fallback when that
list is empty, placeholder text when both joins are empty.  Returns
`(source, context_text)`. -/
def project_qa_retrieve (rawStore sumStore : String → ℕ → String → List RawDoc)
    (target_id : ℤ) (standalone_question : String) : String × String :=
  let context_chunks := retrieve_project_chunks rawStore [target_id] standalone_question
  let chunks_list :=
    if context_chunks ≠ [] then (assocLookup context_chunks (PyKey.pint target_id)).getD []
    else []
  let src_chunks : String × List String :=
    if chunks_list = [] then
      let summary_chunks := retrieve_project_summary sumStore [target_id] standalone_question
      ("Project Summary",
        if summary_chunks ≠ [] then
          (assocLookup summary_chunks (PyKey.pint target_id)).getD []
        else [])
    else ("Detailed Documents", chunks_list)
  let context_text := String.intercalate "\n\n" src_chunks.2
  let context_text :=
    if context_text = "" then "No specific documents or summaries found for this project."
    else context_text
  (src_chunks.1, context_text)

/-- Raw-doc store of the C8 failing input: one chunk for project 123. -/
def rawStoreEx : String → ℕ → String → List RawDoc :=
  fun _ _ _ => [{ project_id := some 123, content := "FACTS" }]

/-- Empty summary store of the C8 failing input. -/
def sumStoreEx : String → ℕ → String → List RawDoc := fun _ _ _ => []

/-! ## History deletion (src/server.py:130-151)

The three thread-keyed tables written by the Postgres checkpointer; the
three DELETEs run inside one transaction, so a failing statement rolls the
whole deletion back and the endpoint reports an HTTP 500 error. -/

structure CkptRow where
  thread_id : String
  payload : ℕ := 0
deriving DecidableEq, Repr

structure PgDB where
  checkpoints : List CkptRow := []
  checkpoint_blobs : List CkptRow := []
  checkpoint_writes : List CkptRow := []
deriving DecidableEq, Repr

/-- `delete_chat_history` (src/server.py:130-151): delete every row of the
thread from the three tables in one transaction; `txFails` injects a
failure of any of the statements, which rolls back the transaction and
returns an error instead of success. -/
def delete_chat_history (db : PgDB) (thread_id : String) (txFails : Bool) : PgDB × Bool :=
  if txFails then (db, false)
  else
    ({ checkpoints := db.checkpoints.filter fun r => r.thread_id ≠ thread_id,
       checkpoint_blobs := db.checkpoint_blobs.filter fun r => r.thread_id ≠ thread_id,
       checkpoint_writes := db.checkpoint_writes.filter fun r => r.thread_id ≠ thread_id },
     true)

/-- Concrete two-thread database for the C9 witness. -/
def pgDBEx : PgDB :=
  { checkpoints := [{ thread_id := "a" }, { thread_id := "b" }],
    checkpoint_blobs := [{ thread_id := "a", payload := 1 }],
    checkpoint_writes := [{ thread_id := "b", payload := 2 }] }

/-! ## Association-list lemmas (Python dict model) -/

theorem assocLookup_nil {κ ν : Type} [DecidableEq κ] (k : κ) :
    assocLookup ([] : List (κ × ν)) k = none := rfl

theorem assocLookup_cons {κ ν : Type} [DecidableEq κ] (kv : κ × ν) (m : List (κ × ν)) (k : κ) :
    assocLookup (kv :: m) k = if kv.1 = k then some kv.2 else assocLookup m k := rfl

theorem assocLookup_append_single {κ ν : Type} [DecidableEq κ]
    (m : List (κ × ν)) (k k' : κ) (v : ν) :
    assocLookup (m ++ [(k, v)]) k' =
      (assocLookup m k').or (if k = k' then some v else none) := by
  induction m with
  | nil => simp [assocLookup_cons, assocLookup_nil, Option.or]
  | cons kv m ih =>
    by_cases h : kv.1 = k'
    · simp [assocLookup_cons, h, Option.or]
    · simp [assocLookup_cons, h, ih]

theorem assocLookup_map_set {κ ν : Type} [DecidableEq κ]
    (m : List (κ × ν)) (k k' : κ) (f : ν → ν) :
    assocLookup (m.map fun kv => if kv.1 = k then (kv.1, f kv.2) else kv) k' =
      if k = k' then (assocLookup m k').map f else assocLookup m k' := by
  induction m with
  | nil => simp [assocLookup_nil]
  | cons kv m ih =>
    by_cases hk : kv.1 = k
    · by_cases h' : kv.1 = k'
      · have : k = k' := hk ▸ h'
        simp [List.map, hk, assocLookup_cons, h', this]
      · have hkk' : ¬ k = k' := fun h => h' (hk.trans h)
        simp [List.map, hk, assocLookup_cons, h', ih, hkk']
    · by_cases h' : kv.1 = k'
      · have hkk' : ¬ k = k' := fun h => hk (h' ▸ h ▸ rfl)
        have hk'k : ¬ k' = k := fun h => hkk' h.symm
        simp [List.map, hk, assocLookup_cons, h', hkk', hk'k]
      · simp [List.map, hk, assocLookup_cons, h', ih]

theorem assocLookup_dictSet (m : CandDict) (k k' : ℕ) (f : Cand → Cand) :
    assocLookup (dictSet m k f) k' =
      if k = k' then (assocLookup m k').map f else assocLookup m k' :=
  assocLookup_map_set m k k' f

theorem assocLookup_sigSet (um : SigDict) (k k' : String) (v : Cand) :
    assocLookup (sigSet um k v) k' =
      if k = k' then (assocLookup um k').map (fun _ => v) else assocLookup um k' :=
  assocLookup_map_set um k k' (fun _ => v)

/-! ## Characterization of the `rerank_node` merge step -/

/-- Merging a track does not create or change entries for ids absent from the track. -/
theorem assocLookup_merge_of_not_mem (src : String) (ps : List Cand) (m : CandDict) (pid : ℕ)
    (h : ∀ p ∈ ps, p.id ≠ pid) :
    assocLookup (merge m ps src) pid = assocLookup m pid := by
  induction ps generalizing m with
  | nil => rfl
  | cons p ps ih =>
    have hp : p.id ≠ pid := h p (by simp)
    have hrest : ∀ q ∈ ps, q.id ≠ pid := fun q hq => h q (by simp [hq])
    rw [merge, List.foldl_cons, ← merge, ih _ hrest]
    unfold mergeOne
    split
    · split
      · rw [assocLookup_dictSet, if_neg hp]
      · split
        · rw [assocLookup_dictSet, if_neg hp]
        · rfl
    · rw [assocLookup_append_single, if_neg hp, Option.or_none]

/-- Merging the tag track: the record stored for `pid` is the first record of
the track with that id, unless `pid` was already present (the `merge` helper
has no score-update branch for `"tag"`, so an existing entry is untouched). -/
theorem assocLookup_merge_tag (ps : List Cand) (m : CandDict) (pid : ℕ) :
    assocLookup (merge m ps "tag") pid =
      (assocLookup m pid).or (ps.find? (fun p => p.id == pid)) := by
  induction ps generalizing m with
  | nil => simp [merge]
  | cons p ps ih =>
    rw [merge, List.foldl_cons, ← merge, ih]
    unfold mergeOne
    rw [if_neg (by decide : ¬ ("tag" : String) = "semantic"),
      if_neg (by decide : ¬ ("tag" : String) = "keyword")]
    by_cases hid : p.id = pid
    · subst hid
      cases hm : assocLookup m p.id with
      | some c => simp [hm, List.find?, Option.or]
      | none =>
        simp only [hm, Option.isSome_none, Bool.false_eq_true, if_false]
        rw [assocLookup_append_single, hm]
        simp [List.find?, Option.or]
    · have hfind : ((p :: ps).find? (fun q => q.id == pid)) = ps.find? (fun q => q.id == pid) :=
        List.find?_cons_of_neg _ (by simp [hid])
      rw [hfind]
      cases hm : assocLookup m p.id with
      | some c => simp [hm]
      | none =>
        simp only [hm, Option.isSome_none, Bool.false_eq_true, if_false]
        rw [assocLookup_append_single, if_neg hid, Option.or_none]

/-- The score-recording update applied by `merge` on an id collision. -/
def scoreUpd (source_name : String) (p : Cand) (c : Cand) : Cand :=
  if source_name = "semantic" then { c with semantic_score := some p.score }
  else if source_name = "keyword" then { c with keyword_score := some p.score }
  else c

/-- Merging the semantic or keyword track over a duplicate-free track output:
a colliding id gets its partial score recorded on the pre-existing record, a
fresh id is inserted as-is. -/
theorem assocLookup_merge_upd (src : String) (hsrc : src = "semantic" ∨ src = "keyword")
    (ps : List Cand) (m : CandDict) (pid : ℕ) (hnd : (ps.map Cand.id).Nodup) :
    assocLookup (merge m ps src) pid =
      match ps.find? (fun p => p.id == pid), assocLookup m pid with
      | none, o => o
      | some p, some c => some (scoreUpd src p c)
      | some p, none => some p := by
  induction ps generalizing m with
  | nil => cases h : assocLookup m pid <;> simp [merge, h]
  | cons p ps ih =>
    have hnd' : (ps.map Cand.id).Nodup := (List.nodup_cons.mp hnd).2
    have hpid : p.id ∉ ps.map Cand.id := (List.nodup_cons.mp hnd).1
    rw [merge, List.foldl_cons, ← merge, ih _ hnd']
    by_cases hid : p.id = pid
    · subst hid
      have hfind : ((p :: ps).find? (fun q => q.id == p.id)) = some p :=
        List.find?_cons_of_pos _ (by simp)
      have hfind' : ps.find? (fun q => q.id == p.id) = none := by
        rw [List.find?_eq_none]
        intro q hq
        simp only [beq_iff_eq]
        intro hqe
        exact hpid (hqe ▸ List.mem_map_of_mem Cand.id hq)
      rw [hfind, hfind']
      unfold mergeOne
      cases hm : assocLookup m p.id with
      | some c =>
        rcases hsrc with h | h <;> subst h
        · simp only [hm, Option.isSome_some, if_true, if_pos rfl]
          rw [assocLookup_dictSet, if_pos rfl, hm]
          simp [scoreUpd]
        · simp only [hm, Option.isSome_some, if_true,
            if_neg (by decide : ¬ ("keyword" : String) = "semantic"), if_pos rfl]
          rw [assocLookup_dictSet, if_pos rfl, hm]
          simp [scoreUpd]
      | none =>
        simp only [hm, Option.isSome_none, Bool.false_eq_true, if_false]
        rw [assocLookup_append_single, hm]
        simp [Option.or]
    · have hfind : ((p :: ps).find? (fun q => q.id == pid)) = ps.find? (fun q => q.id == pid) :=
        List.find?_cons_of_neg _ (by simp [hid])
      rw [hfind]
      have hl : assocLookup (mergeOne src m p) pid = assocLookup m pid := by
        unfold mergeOne
        split
        · split
          · rw [assocLookup_dictSet, if_neg hid]
          · split
            · rw [assocLookup_dictSet, if_neg hid]
            · rfl
        · rw [assocLookup_append_single, if_neg hid, Option.or_none]
      rw [hl]

/-- C1: in the retrieval-fusion rerank step, every candidate entity's fused
score equals `0.4 * tag_score + 0.4 * semantic_score + 0.2 * keyword_score`,
where a track's score defaults to 0 for any entity absent from that track.
The hypotheses state exactly what the upstream track nodes deliver: records
tagged with their track's `source`, with no merge-written partial-score
keys yet, and (for the semantic and keyword tracks, whose rows come from
primary-key queries) duplicate-free ids. -/
theorem rerank_fused_score_weights
    (A B C : List Cand)
    (hA : ∀ a ∈ A, a.source = "tag" ∧ a.semantic_score = none ∧ a.keyword_score = none)
    (hB : ∀ b ∈ B, b.source = "semantic" ∧ b.semantic_score = none ∧ b.keyword_score = none)
    (hC : ∀ c ∈ C, c.source = "keyword" ∧ c.semantic_score = none ∧ c.keyword_score = none)
    (hBnd : (B.map Cand.id).Nodup) (hCnd : (C.map Cand.id).Nodup)
    (pid : ℕ) (v : Cand)
    (hv : assocLookup (mergedCandidates A B C) pid = some v) :
    final_score v = 0.4 * trackScore A pid + 0.4 * trackScore B pid + 0.2 * trackScore C pid := by
  rw [mergedCandidates] at hv
  rw [assocLookup_merge_upd "keyword" (Or.inr rfl) C _ pid hCnd] at hv
  rw [assocLookup_merge_upd "semantic" (Or.inl rfl) B _ pid hBnd] at hv
  rw [assocLookup_merge_tag A [] pid] at hv
  simp only [assocLookup_nil, Option.none_or] at hv
  have memA : ∀ {a : Cand}, A.find? (fun p => p.id == pid) = some a → a ∈ A ∧ a.id = pid :=
    fun h => ⟨List.mem_of_find?_eq_some h, by simpa using List.find?_some h⟩
  have memB : ∀ {b : Cand}, B.find? (fun p => p.id == pid) = some b → b ∈ B ∧ b.id = pid :=
    fun h => ⟨List.mem_of_find?_eq_some h, by simpa using List.find?_some h⟩
  have memC : ∀ {c : Cand}, C.find? (fun p => p.id == pid) = some c → c ∈ C ∧ c.id = pid :=
    fun h => ⟨List.mem_of_find?_eq_some h, by simpa using List.find?_some h⟩
  cases hfa : A.find? (fun p => p.id == pid) with
  | some a =>
    obtain ⟨haA, -⟩ := memA hfa
    obtain ⟨hasrc, hasem, hakw⟩ := hA a haA
    rw [hfa] at hv
    cases hfb : B.find? (fun p => p.id == pid) with
    | some b =>
      rw [hfb] at hv
      cases hfc : C.find? (fun p => p.id == pid) with
      | some c =>
        rw [hfc] at hv
        simp only [Option.some.injEq] at hv
        subst hv
        simp [final_score, tagScoreOf, semanticScoreOf, keywordScoreOf, scoreUpd,
          trackScore, hfa, hfb, hfc, hasrc]
        ring
      | none =>
        rw [hfc] at hv
        simp only [Option.some.injEq] at hv
        subst hv
        simp [final_score, tagScoreOf, semanticScoreOf, keywordScoreOf, scoreUpd,
          trackScore, hfa, hfb, hfc, hasrc, hakw]
        ring
    | none =>
      rw [hfb] at hv
      cases hfc : C.find? (fun p => p.id == pid) with
      | some c =>
        rw [hfc] at hv
        simp only [Option.some.injEq] at hv
        subst hv
        simp [final_score, tagScoreOf, semanticScoreOf, keywordScoreOf, scoreUpd,
          trackScore, hfa, hfb, hfc, hasrc, hasem]
        ring
      | none =>
        rw [hfc] at hv
        simp only [Option.some.injEq] at hv
        subst hv
        simp [final_score, tagScoreOf, semanticScoreOf, keywordScoreOf, scoreUpd,
          trackScore, hfa, hfb, hfc, hasrc, hasem, hakw]
        ring
  | none =>
    rw [hfa] at hv
    cases hfb : B.find? (fun p => p.id == pid) with
    | some b =>
      obtain ⟨hbB, -⟩ := memB hfb
      obtain ⟨hbsrc, hbsem, hbkw⟩ := hB b hbB
      rw [hfb] at hv
      cases hfc : C.find? (fun p => p.id == pid) with
      | some c =>
        rw [hfc] at hv
        simp only [Option.some.injEq] at hv
        subst hv
        simp [final_score, tagScoreOf, semanticScoreOf, keywordScoreOf, scoreUpd,
          trackScore, hfa, hfb, hfc, hbsrc]
        ring
      | none =>
        rw [hfc] at hv
        simp only [Option.some.injEq] at hv
        subst hv
        simp [final_score, tagScoreOf, semanticScoreOf, keywordScoreOf, scoreUpd,
          trackScore, hfa, hfb, hfc, hbsrc, hbkw]
        ring
    | none =>
      rw [hfb] at hv
      cases hfc : C.find? (fun p => p.id == pid) with
      | some c =>
        obtain ⟨hcC, -⟩ := memC hfc
        obtain ⟨hcsrc, hcsem, hckw⟩ := hC c hcC
        rw [hfc] at hv
        simp only [Option.some.injEq] at hv
        subst hv
        simp [final_score, tagScoreOf, semanticScoreOf, keywordScoreOf, scoreUpd,
          trackScore, hfa, hfb, hfc, hcsrc, hcsem]
        ring
      | none =>
        rw [hfc] at hv
        exact absurd hv (by simp)

/-! ## Characterization of the `rerank_node` dedup step -/

theorem assocLookup_eq_none_iff {κ ν : Type} [DecidableEq κ] (m : List (κ × ν)) (k : κ) :
    assocLookup m k = none ↔ k ∉ m.map Prod.fst := by
  induction m with
  | nil => simp [assocLookup_nil]
  | cons kv m ih =>
    by_cases h : kv.1 = k <;> simp [assocLookup_cons, h, ih, eq_comm (a := k)]

theorem dedupStep_title_none (um : SigDict) (data : Cand) (h : data.title = none) :
    dedupStep um data = um := by
  unfold dedupStep
  rw [h]

theorem dedupStep_found (um : SigDict) (data existing : Cand) (t : String)
    (h : data.title = some t) (hl : assocLookup um (candSignature t data) = some existing) :
    dedupStep um data =
      if final_score data > final_score existing then sigSet um (candSignature t data) data
      else um := by
  unfold dedupStep
  rw [h]
  simp only [hl]

theorem dedupStep_fresh (um : SigDict) (data : Cand) (t : String)
    (h : data.title = some t) (hl : assocLookup um (candSignature t data) = none) :
    dedupStep um data = um ++ [(candSignature t data, data)] := by
  unfold dedupStep
  rw [h]
  simp only [hl]

theorem survStep_title_none (s : String) (acc : Option Cand) (c : Cand)
    (h : c.title = none) : survStep s acc c = acc := by
  unfold survStep
  rw [h]

theorem survStep_other_sig (s : String) (acc : Option Cand) (c : Cand) (t : String)
    (h : c.title = some t) (hsig : candSignature t c ≠ s) : survStep s acc c = acc := by
  unfold survStep
  rw [h]
  simp only [hsig, if_false]

theorem survStep_sig_none (s : String) (c : Cand) (t : String)
    (h : c.title = some t) (hsig : candSignature t c = s) : survStep s none c = some c := by
  unfold survStep
  rw [h]
  simp only [hsig, if_true]

theorem survStep_sig_some (s : String) (w c : Cand) (t : String)
    (h : c.title = some t) (hsig : candSignature t c = s) :
    survStep s (some w) c =
      if final_score c > final_score w then some c else some w := by
  unfold survStep
  rw [h]
  simp only [hsig, if_true]

/-- Every entry of the dedup map is keyed by the signature of its value, and
signatures (keys) are pairwise distinct: at most one record survives per
content signature. -/
theorem unique_map_keyed_by_sig (cs : List Cand) :
    ((unique_map cs).map Prod.fst).Nodup ∧
      ∀ e ∈ unique_map cs, ∃ t, e.2.title = some t ∧ candSignature t e.2 = e.1 := by
  suffices h : ∀ (cs : List Cand) (um : SigDict),
      (um.map Prod.fst).Nodup → (∀ e ∈ um, ∃ t, e.2.title = some t ∧ candSignature t e.2 = e.1) →
      ((cs.foldl dedupStep um).map Prod.fst).Nodup ∧
        ∀ e ∈ cs.foldl dedupStep um, ∃ t, e.2.title = some t ∧ candSignature t e.2 = e.1 by
    exact h cs [] (by simp) (by simp)
  intro cs
  induction cs with
  | nil => exact fun um h1 h2 => ⟨h1, h2⟩
  | cons c cs ih =>
    intro um h1 h2
    rw [List.foldl_cons]
    have hstep : ((dedupStep um c).map Prod.fst).Nodup ∧
        ∀ e ∈ dedupStep um c, ∃ t, e.2.title = some t ∧ candSignature t e.2 = e.1 := by
      cases hc : c.title with
      | none => rw [dedupStep_title_none um c hc]; exact ⟨h1, h2⟩
      | some t =>
        cases hl : assocLookup um (candSignature t c) with
        | some w =>
          rw [dedupStep_found um c w t hc hl]
          by_cases hgt : final_score c > final_score w
          · rw [if_pos hgt]
            constructor
            · have : (sigSet um (candSignature t c) c).map Prod.fst = um.map Prod.fst := by
                simp only [sigSet, List.map_map]
                refine List.map_congr_left fun kv _ => ?_
                by_cases h : kv.1 = candSignature t c <;> simp [h]
              rw [this]; exact h1
            · intro e he
              simp only [sigSet, List.mem_map] at he
              obtain ⟨kv, hkv, he⟩ := he
              by_cases h : kv.1 = candSignature t c
              · rw [if_pos h] at he
                exact he ▸ ⟨t, by simp [hc, h]⟩
              · rw [if_neg h] at he
                exact he ▸ h2 kv hkv
          · rw [if_neg hgt]; exact ⟨h1, h2⟩
        | none =>
          rw [dedupStep_fresh um c t hc hl]
          constructor
          · rw [List.map_append, List.nodup_append]
            refine ⟨h1, by simp, ?_⟩
            intro x hx
            simp only [List.map_cons, List.map_nil, List.mem_singleton]
            intro hx2
            subst hx2
            exact ((assocLookup_eq_none_iff um _).mp hl) hx
          · intro e he
            rcases List.mem_append.mp he with h | h
            · exact h2 e h
            · simp only [List.mem_singleton] at h
              exact h ▸ ⟨t, hc, rfl⟩
    exact ih _ hstep.1 hstep.2

theorem assocLookup_dedupStep (um : SigDict) (data : Cand) (s : String) :
    assocLookup (dedupStep um data) s = survStep s (assocLookup um s) data := by
  cases hc : data.title with
  | none => rw [dedupStep_title_none um data hc, survStep_title_none s _ data hc]
  | some t =>
    by_cases hsig : candSignature t data = s
    · subst hsig
      cases hl : assocLookup um (candSignature t data) with
      | some w =>
        rw [dedupStep_found um data w t hc hl,
          survStep_sig_some (candSignature t data) w data t hc rfl]
        by_cases hgt : final_score data > final_score w
        · rw [if_pos hgt, if_pos hgt, assocLookup_sigSet, if_pos rfl, hl]
          rfl
        · rw [if_neg hgt, if_neg hgt, hl]
      | none =>
        rw [dedupStep_fresh um data t hc hl, assocLookup_append_single, hl,
          survStep_sig_none (candSignature t data) data t hc rfl]
        simp [Option.or]
    · rw [survStep_other_sig s _ data t hc hsig]
      cases hl : assocLookup um (candSignature t data) with
      | some w =>
        rw [dedupStep_found um data w t hc hl]
        by_cases hgt : final_score data > final_score w
        · rw [if_pos hgt, assocLookup_sigSet, if_neg hsig]
        · rw [if_neg hgt]
      | none =>
        rw [dedupStep_fresh um data t hc hl, assocLookup_append_single, if_neg hsig,
          Option.or_none]

theorem assocLookup_unique_map (cs : List Cand) (s : String) :
    assocLookup (unique_map cs) s = dedupSurvivor cs s := by
  suffices h : ∀ (cs : List Cand) (um : SigDict),
      assocLookup (cs.foldl dedupStep um) s = cs.foldl (survStep s) (assocLookup um s) by
    simpa [unique_map, dedupSurvivor] using h cs []
  intro cs
  induction cs with
  | nil => intro um; rfl
  | cons c cs ih =>
    intro um
    rw [List.foldl_cons, List.foldl_cons, ih, assocLookup_dedupStep]

/-- Stepping the survivor fold from a present accumulator yields a survivor at
least as good. -/
theorem survStep_some_ge (s : String) (w : Cand) (c : Cand) :
    ∃ w', survStep s (some w) c = some w' ∧ final_score w ≤ final_score w' := by
  cases hc : c.title with
  | none => exact ⟨w, survStep_title_none s _ c hc, le_refl _⟩
  | some t =>
    by_cases hsig : candSignature t c = s
    · rw [survStep_sig_some s w c t hc hsig]
      by_cases hgt : final_score c > final_score w
      · exact ⟨c, by rw [if_pos hgt], le_of_lt hgt⟩
      · exact ⟨w, by rw [if_neg hgt], le_refl _⟩
    · exact ⟨w, survStep_other_sig s _ c t hc hsig, le_refl _⟩

theorem surv_foldl_some_mono (s : String) (cs : List Cand) (w : Cand) :
    ∃ v, cs.foldl (survStep s) (some w) = some v ∧ final_score w ≤ final_score v := by
  induction cs generalizing w with
  | nil => exact ⟨w, rfl, le_refl _⟩
  | cons c cs ih =>
    obtain ⟨w', hw', hle⟩ := survStep_some_ge s w c
    obtain ⟨v, hv, hle'⟩ := ih w'
    exact ⟨v, by rw [List.foldl_cons, hw', hv], le_trans hle hle'⟩

/-- The survivor comes from the list (or was the seed) and carries the
signature it is stored under. -/
theorem surv_mem_sig (s : String) (cs : List Cand) :
    ∀ (acc : Option Cand) (v : Cand), cs.foldl (survStep s) acc = some v →
      acc = some v ∨ (v ∈ cs ∧ ∃ t, v.title = some t ∧ candSignature t v = s) := by
  induction cs with
  | nil => exact fun acc v h => Or.inl h
  | cons c cs ih =>
    intro acc v h
    rw [List.foldl_cons] at h
    rcases ih _ v h with h' | h'
    · cases hc : c.title with
      | none =>
        rw [survStep_title_none s acc c hc] at h'
        exact Or.inl h'
      | some t =>
        by_cases hsig : candSignature t c = s
        · cases acc with
          | none =>
            rw [survStep_sig_none s c t hc hsig] at h'
            simp only [Option.some.injEq] at h'
            exact Or.inr ⟨h' ▸ List.mem_cons_self c cs, t, h' ▸ hc, h' ▸ hsig⟩
          | some w =>
            rw [survStep_sig_some s w c t hc hsig] at h'
            by_cases hgt : final_score c > final_score w
            · rw [if_pos hgt] at h'
              simp only [Option.some.injEq] at h'
              exact Or.inr ⟨h' ▸ List.mem_cons_self c cs, t, h' ▸ hc, h' ▸ hsig⟩
            · rw [if_neg hgt] at h'
              exact Or.inl h'
        · rw [survStep_other_sig s acc c t hc hsig] at h'
          exact Or.inl h'
    · exact Or.inr ⟨List.mem_cons_of_mem c h'.1, h'.2⟩

/-- The survivor's fused score dominates every same-signature titled record;
combined with the strict `>` in `survStep`, the survivor is the
first-encountered maximum. -/
theorem surv_max (s : String) (cs : List Cand) :
    ∀ (acc : Option Cand) (v : Cand), cs.foldl (survStep s) acc = some v →
      (∀ w, acc = some w → final_score w ≤ final_score v) ∧
        ∀ c ∈ cs, ∀ t, c.title = some t → candSignature t c = s →
          final_score c ≤ final_score v := by
  induction cs with
  | nil =>
    intro acc v h
    refine ⟨fun w hw => ?_, by simp⟩
    simp only [List.foldl_nil] at h
    rw [h] at hw
    simp only [Option.some.injEq] at hw
    exact hw ▸ le_refl _
  | cons c cs ih =>
    intro acc v h
    rw [List.foldl_cons] at h
    obtain ⟨hacc, hrest⟩ := ih _ v h
    constructor
    · intro w hw
      subst hw
      obtain ⟨w', hw', hle⟩ := survStep_some_ge s w c
      exact le_trans hle (hacc w' hw')
    · intro d hd t ht hsig
      rcases List.mem_cons.mp hd with h' | h'
      · subst h'
        have hstep : ∃ w', survStep s acc d = some w' ∧ final_score d ≤ final_score w' := by
          cases acc with
          | none => exact ⟨d, survStep_sig_none s d t ht hsig, le_refl _⟩
          | some w =>
            rw [survStep_sig_some s w d t ht hsig]
            by_cases hgt : final_score d > final_score w
            · exact ⟨d, by rw [if_pos hgt], le_refl _⟩
            · exact ⟨w, by rw [if_neg hgt], le_of_not_lt hgt⟩
        obtain ⟨w', hw', hle⟩ := hstep
        exact le_trans hle (hacc w' hw')
      · exact hrest d h' t ht hsig

/-- A titled record guarantees a survivor for its signature. -/
theorem surv_exists (s : String) (cs : List Cand) :
    ∀ (acc : Option Cand) (c : Cand) (t : String), c ∈ cs → c.title = some t →
      candSignature t c = s → ∃ v, cs.foldl (survStep s) acc = some v := by
  induction cs with
  | nil => intro _ c _ h; exact absurd h (List.not_mem_nil c)
  | cons d cs ih =>
    intro acc c t hc ht hsig
    rw [List.foldl_cons]
    rcases List.mem_cons.mp hc with h' | h'
    · subst h'
      have hsome : ∃ w, survStep s acc c = some w := by
        cases acc with
        | none => exact ⟨c, survStep_sig_none s c t ht hsig⟩
        | some w =>
          rw [survStep_sig_some s w c t ht hsig]
          by_cases hgt : final_score c > final_score w
          · exact ⟨c, by rw [if_pos hgt]⟩
          · exact ⟨w, by rw [if_neg hgt]⟩
      obtain ⟨w, hw⟩ := hsome
      rw [hw]
      obtain ⟨v, hv, -⟩ := surv_foldl_some_mono s cs w
      exact ⟨v, hv⟩
    · exact ih _ c t h' ht hsig

/-- Witness for C1: a tag-track entity with occurrence score 2 and no
semantic/keyword hits fuses to `0.4 * 2 + 0.4 * 0 + 0.2 * 0 = 0.8`. -/
theorem rerank_fused_score_weights_witness :
    final_score wTagS = 0.8 := by
  have h := rerank_fused_score_weights (track_tag_recall [wTag]) [] []
    (by decide) (by decide) (by decide) (by decide) (by decide) 1 wTagS rfl
  rw [h]
  norm_num [trackScore, track_tag_recall, wTag, List.find?]

/-- C2: after fusion, candidates are deduplicated by content signature
(lowercased stripped title, lowercased first 100 characters of the stripped
description): the dedup map holds at most one record per signature, the
record stored at a signature is the strictly-better-wins fold over the
fused candidates (so on a collision the strictly higher `final_score`
survives and the first-encountered record survives a tie), the survivor's
fused score dominates every colliding record, a survivor exists whenever a
titled record carries the signature, and the output is the survivors sorted
by fused score descending, cut to at most 15. -/
theorem rerank_dedup_sort_top15 (A B C : List Cand) :
    (((unique_map (fusedValues A B C)).map Prod.fst).Nodup
      ∧ ∀ e ∈ unique_map (fusedValues A B C),
          ∃ t, e.2.title = some t ∧ candSignature t e.2 = e.1)
    ∧ (∀ s, assocLookup (unique_map (fusedValues A B C)) s =
          dedupSurvivor (fusedValues A B C) s)
    ∧ (∀ s v, dedupSurvivor (fusedValues A B C) s = some v →
          (v ∈ fusedValues A B C ∧ ∃ t, v.title = some t ∧ candSignature t v = s)
          ∧ ∀ c ∈ fusedValues A B C, ∀ t, c.title = some t →
              candSignature t c = s → final_score c ≤ final_score v)
    ∧ (∀ s c t, c ∈ fusedValues A B C → c.title = some t →
          candSignature t c = s → (dedupSurvivor (fusedValues A B C) s).isSome)
    ∧ rerank_node A B C =
        (sortByFinalScoreDesc ((unique_map (fusedValues A B C)).map Prod.snd)).take 15
    ∧ (rerank_node A B C).Pairwise (fun a b => final_score b ≤ final_score a)
    ∧ (rerank_node A B C).length ≤ 15 := by
  refine ⟨unique_map_keyed_by_sig _, fun s => assocLookup_unique_map _ s, ?_, ?_, rfl, ?_, ?_⟩
  · intro s v hv
    rw [dedupSurvivor] at hv
    rcases surv_mem_sig s _ none v hv with h | h
    · exact absurd h (by simp)
    · exact ⟨h, fun c hc t ht hsig => (surv_max s _ none v hv).2 c hc t ht hsig⟩
  · intro s c t hc ht hsig
    obtain ⟨v, hv⟩ := surv_exists s _ none c t hc ht hsig
    rw [dedupSurvivor, hv]
    rfl
  · have hsorted : List.Sorted (fun a b => final_score b ≤ final_score a)
        (sortByFinalScoreDesc ((unique_map (fusedValues A B C)).map Prod.snd)) := by
      haveI : IsTotal Cand (fun a b => final_score b ≤ final_score a) :=
        ⟨fun a b => le_total _ _⟩
      haveI : IsTrans Cand (fun a b => final_score b ≤ final_score a) :=
        ⟨fun _ _ _ h1 h2 => le_trans h2 h1⟩
      exact List.sorted_insertionSort _ _
    exact List.Pairwise.sublist (List.take_sublist _ _) hsorted
  · show ((sortByFinalScoreDesc ((unique_map (fusedValues A B C)).map Prod.snd)).take 15).length ≤ 15
    rw [List.length_take]
    exact min_le_left _ _

/-- Witness for C2: on a concrete fused candidate list a survivor exists for
the collision signature and the reranked output respects the top-15 bound. -/
theorem rerank_dedup_sort_top15_witness :
    (dedupSurvivor (fusedValues (track_tag_recall [wTag]) [] []) "robot_d").isSome
    ∧ (rerank_node (track_tag_recall [wTag]) [] []).length ≤ 15 := by
  have h := rerank_dedup_sort_top15 (track_tag_recall [wTag]) [] []
  refine ⟨h.2.2.2.1 "robot_d" wTagS "Robot" ?_ rfl rfl, h.2.2.2.2.2.2⟩
  exact List.mem_singleton.mpr rfl

/-! ## Characterization of `search_projects_by_tags` (claim C4) -/

theorem tagJoinRows_nil_ids (reqs : List ReqRow) (pairs : List (ℕ × ℕ)) :
    tagJoinRows reqs pairs [] = [] := by
  unfold tagJoinRows
  induction pairs with
  | nil => rfl
  | cons pr pairs ih => simp [ih]

theorem assocLookup_tagRowStep_other (cands : CandDict) (row : ReqRow) (pid : ℕ)
    (h : row.id ≠ pid) :
    assocLookup (tagRowStep cands row) pid = assocLookup cands pid := by
  unfold tagRowStep
  split
  · rw [assocLookup_dictSet, if_neg h]
  · rw [assocLookup_dictSet, if_neg h, assocLookup_append_single, if_neg h, Option.or_none]

theorem assocLookup_tagRowStep_self (cands : CandDict) (row : ReqRow) :
    assocLookup (tagRowStep cands row) row.id =
      match assocLookup cands row.id with
      | some c => some { c with score := c.score + 1 }
      | none => some { freshTagCand row with score := (freshTagCand row).score + 1 } := by
  unfold tagRowStep
  cases hm : assocLookup cands row.id with
  | some c =>
    simp only [hm, Option.isSome_some, if_true]
    rw [assocLookup_dictSet, if_pos rfl, hm]
    rfl
  | none =>
    simp only [hm, Option.isSome_none, Bool.false_eq_true, if_false]
    rw [assocLookup_dictSet, if_pos rfl, assocLookup_append_single, hm, if_pos rfl]
    rfl

theorem bumpScore_succ (c : Cand) (n : ℕ) :
    bumpScore { c with score := c.score + 1 } n = bumpScore c (n + 1) := by
  unfold bumpScore
  simp only [Cand.mk.injEq, and_true, true_and]
  push_cast
  ring

/-- Score accumulation of the tag track: each result row bumps its entity's
score by exactly 1. -/
theorem assocLookup_foldl_tagRowStep (rows : List ReqRow) (cands : CandDict) (pid : ℕ) :
    assocLookup (rows.foldl tagRowStep cands) pid =
      match assocLookup cands pid with
      | some c => some (bumpScore c (countRows rows pid))
      | none => (rows.find? fun r => r.id == pid).map
          fun row => bumpScore (freshTagCand row) (countRows rows pid) := by
  induction rows generalizing cands with
  | nil =>
    cases h : assocLookup cands pid with
    | some c =>
      simp only [List.foldl_nil, h, countRows, List.countP_nil]
      unfold bumpScore
      simp
    | none => simp [h, countRows]
  | cons row rows ih =>
    rw [List.foldl_cons, ih]
    by_cases hid : row.id = pid
    · subst hid
      have hcount : countRows (row :: rows) row.id = countRows rows row.id + 1 := by
        simp [countRows, List.countP_cons]
      have hfind : ((row :: rows).find? fun r => r.id == row.id) = some row :=
        List.find?_cons_of_pos _ (by simp)
      rw [assocLookup_tagRowStep_self, hcount, hfind]
      cases hm : assocLookup cands row.id with
      | some c => simp [bumpScore_succ]
      | none => simp [bumpScore_succ]
    · have hcount : countRows (row :: rows) pid = countRows rows pid := by
        simp [countRows, List.countP_cons, hid]
      have hfind : ((row :: rows).find? fun r => r.id == pid) =
          rows.find? fun r => r.id == pid :=
        List.find?_cons_of_neg _ (by simp [hid])
      rw [assocLookup_tagRowStep_other _ _ _ hid, hcount, hfind]

/-- Keys of the tag-track candidate dict are distinct and each entry is
keyed by its record's id. -/
theorem tagDict_inv (rows : List ReqRow) (cands : CandDict)
    (h1 : (cands.map Prod.fst).Nodup) (h2 : ∀ kv ∈ cands, (kv.2 : Cand).id = kv.1) :
    ((rows.foldl tagRowStep cands).map Prod.fst).Nodup ∧
      ∀ kv ∈ rows.foldl tagRowStep cands, (kv.2 : Cand).id = kv.1 := by
  induction rows generalizing cands with
  | nil => exact ⟨h1, h2⟩
  | cons row rows ih =>
    rw [List.foldl_cons]
    have hkeys : ∀ (m : CandDict) (k : ℕ) (f : Cand → Cand),
        (dictSet m k f).map Prod.fst = m.map Prod.fst := by
      intro m k f
      simp only [dictSet, List.map_map]
      refine List.map_congr_left fun kv _ => ?_
      by_cases h : kv.1 = k <;> simp [h]
    refine ih _ ?_ ?_
    · unfold tagRowStep
      by_cases hs : (assocLookup cands row.id).isSome
      · rw [hkeys, if_pos hs]
        exact h1
      · rw [hkeys, if_neg hs, List.map_append, List.nodup_append]
        refine ⟨h1, by simp, ?_⟩
        intro x hx hx2
        simp only [List.map_cons, List.map_nil, List.mem_singleton] at hx2
        subst hx2
        cases hlk : assocLookup cands row.id with
        | some c => exact hs (by rw [hlk]; rfl)
        | none => exact (assocLookup_eq_none_iff cands row.id).mp hlk hx
    · unfold tagRowStep
      by_cases hs : (assocLookup cands row.id).isSome
      · rw [if_pos hs]
        intro kv hkv
        simp only [dictSet, List.mem_map] at hkv
        obtain ⟨kv0, hkv0, he⟩ := hkv
        by_cases hk : kv0.1 = row.id
        · rw [if_pos hk] at he
          subst he
          exact h2 kv0 hkv0
        · rw [if_neg hk] at he
          exact he ▸ h2 kv0 hkv0
      · rw [if_neg hs]
        intro kv hkv
        simp only [dictSet, List.mem_map] at hkv
        obtain ⟨kv0, hkv0, he⟩ := hkv
        rcases List.mem_append.mp hkv0 with h | h
        · by_cases hk : kv0.1 = row.id
          · rw [if_pos hk] at he
            subst he
            exact h2 kv0 h
          · rw [if_neg hk] at he
            exact he ▸ h2 kv0 h
        · simp only [List.mem_singleton] at h
          subst h
          rw [if_pos rfl] at he
          subst he
          rfl

/-- In a dict with distinct keys, every entry is reachable by lookup. -/
theorem assocLookup_of_mem_of_nodup {κ ν : Type} [DecidableEq κ]
    (m : List (κ × ν)) (k : κ) (v : ν)
    (hnd : (m.map Prod.fst).Nodup) (h : (k, v) ∈ m) : assocLookup m k = some v := by
  induction m with
  | nil => exact absurd h (List.not_mem_nil _)
  | cons kv m ih =>
    rcases List.mem_cons.mp h with h' | h'
    · subst h'
      rw [assocLookup_cons, if_pos rfl]
    · have hne : kv.1 ≠ k := by
        intro he
        have hk : k ∈ m.map Prod.fst := List.mem_map_of_mem Prod.fst h'
        exact (List.nodup_cons.mp hnd).1 (he ▸ hk)
      rw [assocLookup_cons, if_neg hne]
      exact ih (List.nodup_cons.mp hnd).2 h'

/-- `search_projects_by_tags` with the empty-id-list guards eliminated
(`if interest_ids:` only skips a query that would return no rows). -/
theorem search_projects_by_tags_eq (db : TagDB) (i s : List ℕ) :
    search_projects_by_tags db i s =
      ((((tagJoinRows db.project_requirement db.project_requirement_tag2 s).foldl tagRowStep
          ((tagJoinRows db.project_requirement db.project_requirement_tag1 i).foldl
            tagRowStep [])).map Prod.snd).insertionSort
        fun a b => Cand.score b ≤ Cand.score a).take 20 := by
  unfold search_projects_by_tags
  by_cases hi : i = [] <;> by_cases hs : s = []
  · subst hi; subst hs
    simp [tagJoinRows_nil_ids]
  · subst hi
    simp [tagJoinRows_nil_ids, hs]
  · subst hs
    simp [tagJoinRows_nil_ids, hi]
  · simp [hi, hs]

/-- C4 counterexample: with six requirements each tagged by the single
supplied interest id (requirement 6 via a duplicated tag row), the tag
track returns 6 entities — not at most 5 — and requirement 6 scores 2.0
(one point per row) although it matches exactly 1 distinct supplied id. -/
theorem search_projects_by_tags_counterexample :
    (search_projects_by_tags ctDB [1] []).length = 6
    ∧ ¬ ((search_projects_by_tags ctDB [1] []).length ≤ 5)
    ∧ (∃ c ∈ search_projects_by_tags ctDB [1] [],
        c.id = 6 ∧ c.score = 2
          ∧ ([1].filter fun t => decide ((6, t) ∈ ctDB.project_requirement_tag1)).length = 1)
    ∧ (2 : ℚ) ≠ 1 := by
  have hvals : (((tagJoinRows ctDB.project_requirement ctDB.project_requirement_tag1
        [1]).foldl tagRowStep []).map Prod.snd) =
      [ctCand 1, ctCand 2, ctCand 3, ctCand 4, ctCand 5, ctCand6] := rfl
  have hfull : search_projects_by_tags ctDB [1] [] =
      ((((tagJoinRows ctDB.project_requirement ctDB.project_requirement_tag1 [1]).foldl
          tagRowStep []).map Prod.snd).insertionSort
        fun a b => Cand.score b ≤ Cand.score a) := by
    rw [search_projects_by_tags_eq, tagJoinRows_nil_ids, List.foldl_nil]
    apply List.take_of_length_le
    rw [List.length_insertionSort, hvals]
    norm_num
  have hlen : (search_projects_by_tags ctDB [1] []).length = 6 := by
    rw [hfull, List.length_insertionSort, hvals]
    rfl
  refine ⟨hlen, by omega, ?_, by norm_num⟩
  refine ⟨ctCand6, ?_, rfl, by norm_num [ctCand6], by decide⟩
  rw [hfull]
  refine ((List.perm_insertionSort _ _).mem_iff).mpr ?_
  rw [hvals]
  exact List.Mem.tail _ (List.Mem.tail _ (List.Mem.tail _ (List.Mem.tail _
    (List.Mem.tail _ (List.Mem.head _)))))

theorem countP_or_disjoint {α : Type} (l : List α) (p q : α → Bool)
    (h : ∀ x ∈ l, ¬(p x = true ∧ q x = true)) :
    l.countP (fun x => p x || q x) = l.countP p + l.countP q := by
  induction l with
  | nil => simp
  | cons a l ih =>
    have hrest : ∀ x ∈ l, ¬(p x = true ∧ q x = true) :=
      fun x hx => h x (List.mem_cons_of_mem _ hx)
    simp only [List.countP_cons]
    rw [ih hrest]
    by_cases hp : p a = true <;> by_cases hq : q a = true
    · exact absurd ⟨hp, hq⟩ (h a (List.mem_cons_self a l))
    all_goals simp [hp, hq] <;> omega

/-- A join-table row contributes to an entity's row count iff its tag is
among the supplied ids — given the entity's (primary-key) requirement row
exists with an allowed status. -/
theorem countRows_tagJoinRows (reqs : List ReqRow) (pairs : List (ℕ × ℕ)) (ids : List ℕ)
    (pid : ℕ) (r : ReqRow)
    (hfind : reqs.find? (fun q => q.id == pid) = some r)
    (hst : allowedStatus r.status = true) :
    countRows (tagJoinRows reqs pairs ids) pid =
      pairs.countP fun pr => pr.1 == pid && decide (pr.2 ∈ ids) := by
  induction pairs with
  | nil => rfl
  | cons pr pairs ih =>
    unfold tagJoinRows at ih ⊢
    rw [List.filterMap_cons, List.countP_cons]
    by_cases hmem : pr.2 ∈ ids
    · by_cases hpid : pr.1 = pid
      · subst hpid
        simp only [if_pos hmem, hfind, hst, if_true]
        have hrid : r.id = pr.1 := by simpa using List.find?_some hfind
        rw [countRows, List.countP_cons, ← countRows, ih]
        simp [hrid, hmem]
      · rw [if_pos hmem]
        cases hf : reqs.find? (fun q : ReqRow => q.id == pr.1) with
        | none =>
          simp only [ih]
          simp [hpid]
        | some r0 =>
          have hr0 : r0.id = pr.1 := by simpa using List.find?_some hf
          by_cases hall : allowedStatus r0.status = true
          · simp only [hall, if_true]
            rw [countRows, List.countP_cons, ← countRows, ih]
            simp [hr0, hpid]
          · simp only [Bool.not_eq_true] at hall
            simp only [hall, Bool.false_eq_true, if_false, ih]
            simp [hpid]
    · rw [if_neg hmem]
      simp only [ih]
      simp [hmem]

/-- In a duplicate-free list, an element is counted at most once. -/
theorem countP_eq_of_nodup {α : Type} [DecidableEq α] (l : List α) (a : α) (h : l.Nodup) :
    l.countP (fun x => decide (x = a)) = if a ∈ l then 1 else 0 := by
  induction l with
  | nil => simp
  | cons b l ih =>
    obtain ⟨hb, hl⟩ := List.nodup_cons.mp h
    rw [List.countP_cons, ih hl]
    by_cases hab : a = b
    · subst hab
      simp [hb]
    · simp only [List.mem_cons, hab, false_or]
      have : (decide (b = a)) = false := by simp [Ne.symm hab]
      rw [this]
      simp

/-- With duplicate-free tables and id lists, the per-row count coincides
with the number of distinct supplied ids the entity matches. -/
theorem countP_pairs_distinct (pairs : List (ℕ × ℕ)) (ids : List ℕ) (pid : ℕ)
    (hpairs : pairs.Nodup) (hids : ids.Nodup) :
    pairs.countP (fun pr => pr.1 == pid && decide (pr.2 ∈ ids)) =
      (ids.filter fun t => decide ((pid, t) ∈ pairs)).length := by
  induction ids with
  | nil =>
    simp only [List.filter_nil, List.length_nil]
    rw [List.countP_eq_zero]
    intro pr _
    simp
  | cons t ids ih =>
    obtain ⟨htmem, hids'⟩ := List.nodup_cons.mp hids
    have hsplit : pairs.countP (fun pr => pr.1 == pid && decide (pr.2 ∈ t :: ids)) =
        pairs.countP (fun pr => decide (pr = (pid, t))) +
          pairs.countP (fun pr => pr.1 == pid && decide (pr.2 ∈ ids)) := by
      rw [← countP_or_disjoint]
      · apply List.countP_congr
        intro pr _
        by_cases h1 : pr.1 = pid <;> by_cases h2 : pr.2 = t <;>
          simp [h1, h2, List.mem_cons, Prod.ext_iff]
      · rintro pr _ ⟨h1, h2⟩
        simp only [decide_eq_true_eq] at h1
        simp only [Bool.and_eq_true, beq_iff_eq, decide_eq_true_eq] at h2
        subst h1
        exact htmem h2.2
    rw [hsplit, ih hids', List.filter_cons, countP_eq_of_nodup pairs (pid, t) hpairs]
    by_cases hm : (pid, t) ∈ pairs
    · rw [if_pos hm, if_pos (by simpa using hm)]
      simp [Nat.add_comm]
    · rw [if_neg hm, if_neg (by simpa using hm)]
      simp

/-- Every row of the tag join has an allowed status. -/
theorem tagJoinRows_status (reqs : List ReqRow) (pairs : List (ℕ × ℕ)) (ids : List ℕ) :
    ∀ row ∈ tagJoinRows reqs pairs ids, allowedStatus row.status = true := by
  intro row hrow
  rw [tagJoinRows, List.mem_filterMap] at hrow
  obtain ⟨pr, -, hf⟩ := hrow
  by_cases hmem : pr.2 ∈ ids
  · rw [if_pos hmem] at hf
    cases hfind : reqs.find? (fun r => r.id == pr.1) with
    | none =>
      rw [hfind] at hf
      exact absurd (show (none : Option ReqRow) = some row from hf) (by simp)
    | some r0 =>
      rw [hfind] at hf
      have hf2 : (if allowedStatus r0.status = true then some r0 else none) = some row := hf
      by_cases hall : allowedStatus r0.status = true
      · rw [if_pos hall] at hf2
        cases hf2
        exact hall
      · rw [if_neg hall] at hf2
        cases hf2
  · rw [if_neg hmem] at hf
    cases hf

/-- If no join row mentions `pid`, its row count is 0. -/
theorem countRows_eq_zero_of_find?_none (rows : List ReqRow) (pid : ℕ)
    (h : rows.find? (fun q => q.id == pid) = none) : countRows rows pid = 0 := by
  rw [countRows, List.countP_eq_zero]
  intro row hrow
  have := List.find?_eq_none.mp h row hrow
  simpa using this

/-- C4 (amended): the tag track keeps the top **20** (not 5) entities,
sorted by score descending; every returned entity has an allowed status and
a score equal to the number of join-table **rows** that mention it (one
increment per returned row, not per distinct id); when the tag table and
the supplied id list are duplicate-free, that row count equals the number
of distinct supplied ids the entity matches. -/
theorem search_projects_by_tags_amended (db : TagDB) (interest_ids skill_ids : List ℕ) :
    (search_projects_by_tags db interest_ids skill_ids).length ≤ 20
    ∧ (search_projects_by_tags db interest_ids skill_ids).Pairwise
        (fun a b => Cand.score b ≤ Cand.score a)
    ∧ (∀ c ∈ search_projects_by_tags db interest_ids skill_ids,
        allowedStatus c.status = true
        ∧ c.score =
            (countRows (tagJoinRows db.project_requirement db.project_requirement_tag1
              interest_ids) c.id : ℚ)
            + (countRows (tagJoinRows db.project_requirement db.project_requirement_tag2
              skill_ids) c.id : ℚ))
    ∧ (∀ pid r, db.project_requirement_tag1.Nodup → interest_ids.Nodup →
        db.project_requirement.find? (fun q => q.id == pid) = some r →
        allowedStatus r.status = true →
        countRows (tagJoinRows db.project_requirement db.project_requirement_tag1
            interest_ids) pid =
          (interest_ids.filter fun t =>
            decide ((pid, t) ∈ db.project_requirement_tag1)).length) := by
  have hiRows : tagJoinRows db.project_requirement db.project_requirement_tag1 interest_ids =
      tagJoinRows db.project_requirement db.project_requirement_tag1 interest_ids := rfl
  refine ⟨?_, ?_, ?_, ?_⟩
  · rw [search_projects_by_tags_eq, List.length_take]
    exact min_le_left _ _
  · rw [search_projects_by_tags_eq]
    have hsorted : List.Sorted (fun a b => Cand.score b ≤ Cand.score a)
        ((((tagJoinRows db.project_requirement db.project_requirement_tag2 skill_ids).foldl
            tagRowStep
            ((tagJoinRows db.project_requirement db.project_requirement_tag1
              interest_ids).foldl tagRowStep [])).map Prod.snd).insertionSort
          fun a b => Cand.score b ≤ Cand.score a) := by
      haveI : IsTotal Cand fun a b => Cand.score b ≤ Cand.score a := ⟨fun a b => le_total _ _⟩
      haveI : IsTrans Cand fun a b => Cand.score b ≤ Cand.score a :=
        ⟨fun _ _ _ h1 h2 => le_trans h2 h1⟩
      exact List.sorted_insertionSort _ _
    exact List.Pairwise.sublist (List.take_sublist _ _) hsorted
  · intro c hc
    rw [search_projects_by_tags_eq] at hc
    have hc2 := (List.perm_insertionSort _ _).mem_iff.mp
      ((List.take_sublist _ _).mem hc)
    rw [List.mem_map] at hc2
    obtain ⟨kv, hkv, hkvc⟩ := hc2
    have hinv := tagDict_inv
      (tagJoinRows db.project_requirement db.project_requirement_tag2 skill_ids)
      ((tagJoinRows db.project_requirement db.project_requirement_tag1 interest_ids).foldl
        tagRowStep [])
      (by
        exact (tagDict_inv _ [] (by simp) (by simp)).1)
      (by
        exact (tagDict_inv _ [] (by simp) (by simp)).2)
    have hkey : kv.1 = c.id := by
      rw [← hkvc]
      exact (hinv.2 kv hkv).symm
    have hlook : assocLookup
        ((tagJoinRows db.project_requirement db.project_requirement_tag2 skill_ids).foldl
          tagRowStep
          ((tagJoinRows db.project_requirement db.project_requirement_tag1
            interest_ids).foldl tagRowStep [])) c.id = some c := by
      rw [← hkey, ← hkvc]
      exact assocLookup_of_mem_of_nodup _ kv.1 kv.2 hinv.1 (by simpa using hkv)
    rw [assocLookup_foldl_tagRowStep, assocLookup_foldl_tagRowStep] at hlook
    simp only [assocLookup_nil] at hlook
    cases hfi : (tagJoinRows db.project_requirement db.project_requirement_tag1
        interest_ids).find? fun q => q.id == c.id with
    | some rowi =>
      rw [hfi] at hlook
      have hlook2 : some (bumpScore (bumpScore (freshTagCand rowi)
          (countRows (tagJoinRows db.project_requirement db.project_requirement_tag1
            interest_ids) c.id))
          (countRows (tagJoinRows db.project_requirement db.project_requirement_tag2
            skill_ids) c.id)) = some c := hlook
      have hc2 : bumpScore (bumpScore (freshTagCand rowi)
          (countRows (tagJoinRows db.project_requirement db.project_requirement_tag1
            interest_ids) c.id))
          (countRows (tagJoinRows db.project_requirement db.project_requirement_tag2
            skill_ids) c.id) = c := by injection hlook2
      have hsti : allowedStatus rowi.status = true :=
        tagJoinRows_status _ _ _ rowi (List.mem_of_find?_eq_some hfi)
      have hstat : rowi.status = c.status := congrArg Cand.status hc2
      have hscore : 0 + (countRows (tagJoinRows db.project_requirement
            db.project_requirement_tag1 interest_ids) c.id : ℚ)
          + (countRows (tagJoinRows db.project_requirement db.project_requirement_tag2
            skill_ids) c.id : ℚ) = c.score := congrArg Cand.score hc2
      constructor
      · rw [← hstat]
        exact hsti
      · rw [← hscore]
        ring
    | none =>
      rw [hfi] at hlook
      have hzero : countRows (tagJoinRows db.project_requirement
          db.project_requirement_tag1 interest_ids) c.id = 0 :=
        countRows_eq_zero_of_find?_none _ _ hfi
      have hlook2 : ((tagJoinRows db.project_requirement db.project_requirement_tag2
          skill_ids).find? fun q => q.id == c.id).map
          (fun row => bumpScore (freshTagCand row)
            (countRows (tagJoinRows db.project_requirement db.project_requirement_tag2
              skill_ids) c.id)) = some c := hlook
      cases hfs : (tagJoinRows db.project_requirement db.project_requirement_tag2
          skill_ids).find? fun q => q.id == c.id with
      | some rows0 =>
        rw [hfs] at hlook2
        have hlook3 : some (bumpScore (freshTagCand rows0)
            (countRows (tagJoinRows db.project_requirement db.project_requirement_tag2
              skill_ids) c.id)) = some c := hlook2
        have hc2 : bumpScore (freshTagCand rows0)
            (countRows (tagJoinRows db.project_requirement db.project_requirement_tag2
              skill_ids) c.id) = c := by injection hlook3
        have hsts : allowedStatus rows0.status = true :=
          tagJoinRows_status _ _ _ rows0 (List.mem_of_find?_eq_some hfs)
        have hstat : rows0.status = c.status := congrArg Cand.status hc2
        have hscore : 0 + (countRows (tagJoinRows db.project_requirement
              db.project_requirement_tag2 skill_ids) c.id : ℚ) = c.score :=
          congrArg Cand.score hc2
        constructor
        · rw [← hstat]
          exact hsts
        · rw [← hscore, hzero]
          push_cast
          ring
      | none =>
        rw [hfs] at hlook2
        exact absurd hlook2 (by simp)
  · intro pid r hnd1 hnd2 hfind hst
    rw [countRows_tagJoinRows db.project_requirement db.project_requirement_tag1
      interest_ids pid r hfind hst]
    exact countP_pairs_distinct _ _ _ hnd1 hnd2

/-- Witness for the amended C4: on a duplicate-free single-tag database, the
output respects the top-20 bound and the row count equals the distinct
matched-id count. -/
theorem search_projects_by_tags_amended_witness :
    (search_projects_by_tags wTagDB [1] []).length ≤ 20
    ∧ countRows (tagJoinRows wTagDB.project_requirement wTagDB.project_requirement_tag1
          [1]) 1 =
        ([1].filter fun t => decide ((1, t) ∈ wTagDB.project_requirement_tag1)).length := by
  have h := search_projects_by_tags_amended wTagDB [1] []
  exact ⟨h.1, h.2.2.2 1 (ctReq 1) (by decide) (by decide) rfl rfl⟩

/-! ## Characterization of `search_projects_fulltext` (claim C3) -/

/-- C3 counterexample: the keyword track returns the search engine's
relevance score and up to 20 rows.  With six status-allowed rows matching
the single keyword `"robot"`, all six are returned (not at most 5), and the
top row's score is the engine's relevance 6 — not the count (1) of distinct
supplied keywords occurring in its title+description. -/
theorem search_projects_fulltext_counterexample :
    (search_projects_fulltext ftOracle ftReqs ["robot"]).length = 6
    ∧ ¬ ((search_projects_fulltext ftOracle ftReqs ["robot"]).length ≤ 5)
    ∧ ((search_projects_fulltext ftOracle ftReqs ["robot"]).head?.map Cand.score) = some 6
    ∧ claimKeywordScore ["robot"] "robot one" "" = 1
    ∧ (6 : ℚ) ≠ 1 := by
  refine ⟨by decide, by decide, by decide, by decide, by decide⟩

/-- C3 (amended): the keyword track returns at most **20** entities
(`LIMIT 20`, not top 5); each returned entity is a status-allowed
requirement row whose score is the relevance reported by the fulltext
engine — or the constant 1.0 when the LIKE fallback fired, in which case
some supplied keyword occurs as a substring of its title or description;
in the fulltext path the rows come back ordered by engine relevance
descending. -/
theorem search_projects_fulltext_amended (ft : String → ReqRow → Option ℚ)
    (reqs : List ReqRow) (keywords : List String) :
    (search_projects_fulltext ft reqs keywords).length ≤ 20
    ∧ (∀ c ∈ search_projects_fulltext ft reqs keywords,
        ∃ r ∈ reqs, allowedStatus r.status = true ∧ c.id = r.id ∧ c.title = some r.title
          ∧ c.description = r.description
          ∧ ((c.match_type = "fulltext"
                ∧ ft (String.intercalate " " keywords) r = some c.score)
             ∨ (c.match_type = "like_fallback" ∧ c.score = 1
                ∧ (keywords.any fun k => containsSub r.title.data k.data
                    || containsSub r.description.data k.data) = true)))
    ∧ (fulltextRows ft reqs (String.intercalate " " keywords) ≠ [] →
        (search_projects_fulltext ft reqs keywords).Pairwise
          fun a b => Cand.score b ≤ Cand.score a) := by
  by_cases hkw : keywords = []
  · subst hkw
    refine ⟨by simp [search_projects_fulltext], by simp [search_projects_fulltext], ?_⟩
    intro _
    simp [search_projects_fulltext]
  · have hout : search_projects_fulltext ft reqs keywords =
        (if fulltextRows ft reqs (String.intercalate " " keywords) = []
          then likeRows reqs keywords
          else fulltextRows ft reqs (String.intercalate " " keywords)).map fun row =>
          { id := row.id, title := some row.title, status := row.status,
            description := row.description, score := row.score,
            match_type := row.match_type.getD "fulltext" } := by
      unfold search_projects_fulltext
      rw [if_neg hkw]
    refine ⟨?_, ?_, ?_⟩
    · rw [hout, List.length_map]
      by_cases hrows : fulltextRows ft reqs (String.intercalate " " keywords) = []
      · rw [if_pos hrows]
        unfold likeRows
        rw [List.length_map, List.length_take]
        exact min_le_left _ _
      · rw [if_neg hrows]
        unfold fulltextRows
        rw [List.length_take]
        exact min_le_left _ _
    · intro c hc
      rw [hout, List.mem_map] at hc
      obtain ⟨row, hrow, hmk⟩ := hc
      by_cases hrows : fulltextRows ft reqs (String.intercalate " " keywords) = []
      · rw [if_pos hrows] at hrow
        unfold likeRows at hrow
        rw [List.mem_map] at hrow
        obtain ⟨r, hr, hg⟩ := hrow
        have hr2 := (List.take_sublist _ _).mem hr
        rw [List.mem_filter] at hr2
        obtain ⟨hrmem, hcond⟩ := hr2
        simp only [Bool.and_eq_true] at hcond
        subst hg
        subst hmk
        exact ⟨r, hrmem, hcond.2, rfl, rfl, rfl, Or.inr ⟨rfl, rfl, hcond.1⟩⟩
      · rw [if_neg hrows] at hrow
        unfold fulltextRows at hrow
        have hrow2 := (List.perm_insertionSort _ _).mem_iff.mp
          ((List.take_sublist _ _).mem hrow)
        rw [List.mem_filterMap] at hrow2
        obtain ⟨r, hrmem, hfr⟩ := hrow2
        cases hft : ft (String.intercalate " " keywords) r with
        | none => rw [hft] at hfr; cases hfr
        | some sc =>
          rw [hft] at hfr
          have hfr2 : (if allowedStatus r.status = true then
              some ({ id := r.id, title := r.title, status := r.status,
                      description := r.description, score := sc,
                      match_type := none } : SqlRow)
              else none) = some row := hfr
          by_cases hall : allowedStatus r.status = true
          · rw [if_pos hall] at hfr2
            cases hfr2
            subst hmk
            exact ⟨r, hrmem, hall, rfl, rfl, rfl, Or.inl ⟨rfl, hft⟩⟩
          · rw [if_neg hall] at hfr2
            cases hfr2
    · intro hne
      rw [hout, if_neg hne]
      have hsorted : List.Pairwise (fun a b : SqlRow => b.score ≤ a.score)
          (fulltextRows ft reqs (String.intercalate " " keywords)) := by
        unfold fulltextRows
        refine List.Pairwise.sublist (List.take_sublist _ _) ?_
        haveI : IsTotal SqlRow fun a b => SqlRow.score b ≤ SqlRow.score a :=
          ⟨fun a b => le_total _ _⟩
        haveI : IsTrans SqlRow fun a b => SqlRow.score b ≤ SqlRow.score a :=
          ⟨fun _ _ _ h1 h2 => le_trans h2 h1⟩
        exact List.sorted_insertionSort _ _
      exact (List.pairwise_map.mpr (by simpa using hsorted))

/-- Witness for the amended C3: on the concrete run the output respects the
LIMIT-20 bound and the top candidate traces back to a status-allowed row
carrying its engine relevance as score. -/
theorem search_projects_fulltext_amended_witness :
    (search_projects_fulltext ftOracle ftReqs ["robot"]).length ≤ 20
    ∧ (∃ r ∈ ftReqs, allowedStatus r.status = true ∧ ftTopCand.id = r.id
        ∧ ftTopCand.title = some r.title ∧ ftTopCand.description = r.description
        ∧ ((ftTopCand.match_type = "fulltext"
              ∧ ftOracle (String.intercalate " " ["robot"]) r = some ftTopCand.score)
           ∨ (ftTopCand.match_type = "like_fallback" ∧ ftTopCand.score = 1
              ∧ (List.any ["robot"] fun k => containsSub r.title.data k.data
                  || containsSub r.description.data k.data) = true))) := by
  have h := search_projects_fulltext_amended ftOracle ftReqs ["robot"]
  refine ⟨h.1, h.2.1 ftTopCand ?_⟩
  have hlist : search_projects_fulltext ftOracle ftReqs ["robot"] =
      ftTopCand :: (search_projects_fulltext ftOracle ftReqs ["robot"]).tail := by decide
  rw [hlist]
  exact List.Mem.head _

/-! ## Characterization of `search_projects_semantic` (claim C5) -/

/-- C5 counterexample: the semantic track requests the top `semanticSearchK`
= 20 matches from the vector store, not 5; with a store answering six
documents that all hydrate, six candidates come back. -/
theorem search_projects_semantic_counterexample :
    semanticSearchK = 20 ∧ semanticSearchK ≠ 5
    ∧ (search_projects_semantic semStoreEx semReqs "q").length = 6
    ∧ ¬ ((search_projects_semantic semStoreEx semReqs "q").length ≤ 5) :=
  ⟨rfl, by decide, by decide, by decide⟩

/-- C5 (amended): the semantic track queries the vector store with
K = `semanticSearchK` = 20 (not 5); every returned candidate is hydrated
from a status-allowed relational row (title, status, description from the
row) and carries the vector score recorded for its id; any entity id with
no allowed relational row — in particular one present in the vector
results but absent from the relational fetch — never appears in the
output, and no error is raised (the embedding is a total function). -/
theorem search_projects_semantic_amended (store : String → ℕ → List (SemDoc × ℚ))
    (reqs : List ReqRow) (query : String) :
    (∀ c ∈ search_projects_semantic store reqs query,
      ∃ r ∈ reqs, allowedStatus r.status = true ∧ c.id = r.id ∧ c.title = some r.title
        ∧ c.status = r.status ∧ c.description = r.description
        ∧ c.match_type = "semantic"
        ∧ ∃ content, assocLookup (milvusMatches (store query semanticSearchK)) r.id =
            some (c.score, content))
    ∧ (∀ pid, (¬ ∃ r ∈ reqs, r.id = pid ∧ allowedStatus r.status = true) →
        ∀ c ∈ search_projects_semantic store reqs query, c.id ≠ pid) := by
  have hmain : ∀ c ∈ search_projects_semantic store reqs query,
      ∃ r ∈ reqs, allowedStatus r.status = true ∧ c.id = r.id ∧ c.title = some r.title
        ∧ c.status = r.status ∧ c.description = r.description
        ∧ c.match_type = "semantic"
        ∧ ∃ content, assocLookup (milvusMatches (store query semanticSearchK)) r.id =
            some (c.score, content) := by
    intro c hc
    unfold search_projects_semantic at hc
    by_cases hids : (store query semanticSearchK).filterMap (fun ds => resolvePid ds.1) = []
    · rw [if_pos hids] at hc
      exact absurd hc (List.not_mem_nil c)
    · rw [if_neg hids] at hc
      rw [List.mem_filterMap] at hc
      obtain ⟨r, hr, hmap⟩ := hc
      rw [List.mem_filter] at hr
      obtain ⟨hrmem, hcond⟩ := hr
      simp only [Bool.and_eq_true, decide_eq_true_eq] at hcond
      cases hlk : assocLookup (milvusMatches (store query semanticSearchK)) r.id with
      | none => rw [hlk] at hmap; cases hmap
      | some sc =>
        rw [hlk] at hmap
        have hmap2 : some ({ id := r.id, title := some r.title, status := r.status,
                             description := r.description, score := sc.1,
                             match_type := "semantic" } : Cand) = some c := hmap
        have hc2 : ({ id := r.id, title := some r.title, status := r.status,
                      description := r.description, score := sc.1,
                      match_type := "semantic" } : Cand) = c := by injection hmap2
        subst hc2
        exact ⟨r, hrmem, hcond.2, rfl, rfl, rfl, rfl, rfl, sc.2, hlk⟩
  refine ⟨hmain, ?_⟩
  intro pid hno c hc hcid
  obtain ⟨r, hrmem, hall, hid, -⟩ := hmain c hc
  exact hno ⟨r, hrmem, by rw [← hid, hcid], hall⟩

/-- Witness for the amended C5: the concrete top candidate hydrates from an
allowed row with its vector score, and no candidate carries an id that has
no allowed relational row. -/
theorem search_projects_semantic_amended_witness :
    (∃ r ∈ semReqs, allowedStatus r.status = true ∧ semTopCand.id = r.id
      ∧ semTopCand.title = some r.title ∧ semTopCand.status = r.status
      ∧ semTopCand.description = r.description
      ∧ semTopCand.match_type = "semantic"
      ∧ ∃ content, assocLookup (milvusMatches (semStoreEx "q" semanticSearchK)) r.id =
          some (semTopCand.score, content))
    ∧ semTopCand.id ≠ 99 := by
  have h := search_projects_semantic_amended semStoreEx semReqs "q"
  have hmem : semTopCand ∈ search_projects_semantic semStoreEx semReqs "q" := by
    have hlist : search_projects_semantic semStoreEx semReqs "q" =
        semTopCand :: (search_projects_semantic semStoreEx semReqs "q").tail := by decide
    rw [hlist]
    exact List.Mem.head _
  exact ⟨h.1 semTopCand hmem, h.2 99 (by decide) semTopCand hmem⟩

/-! ## Router lemmas (C6, C10) -/

/-- Unfolding of `router_node` on a successful model response. -/
theorem router_node_ok (content : String) (jparse : String → ParsedRouter) (msg : String) :
    router_node (LLMOutcome.ok content) jparse msg =
      match jsonBlock (pyStrip content) with
      | some js =>
        match jparse js with
        | ParsedRouter.exc => { next_step := "chat_response" }
        | ParsedRouter.ok i t => routeDispatch (pyUpper (i.getD "CHAT")) (t.getD 0) msg
      | none =>
        routeDispatch (pyUpper (kwFallbackIntent (pyStrip content)).1)
          (kwFallbackIntent (pyStrip content)).2 msg := rfl

/-- `router_node` when the response has no brace-delimited block. -/
theorem router_node_ok_none (content : String) (jparse : String → ParsedRouter)
    (msg : String) (hj : jsonBlock (pyStrip content) = none) :
    router_node (LLMOutcome.ok content) jparse msg =
      routeDispatch (pyUpper (kwFallbackIntent (pyStrip content)).1)
        (kwFallbackIntent (pyStrip content)).2 msg := by
  rw [router_node_ok, hj]

/-- `router_node` when the brace block fails to parse as JSON. -/
theorem router_node_ok_exc (content js : String) (jparse : String → ParsedRouter)
    (msg : String) (hj : jsonBlock (pyStrip content) = some js)
    (hp : jparse js = ParsedRouter.exc) :
    router_node (LLMOutcome.ok content) jparse msg = { next_step := "chat_response" } := by
  rw [router_node_ok, hj]
  have h2 : (match jparse js with
      | ParsedRouter.exc => ({ next_step := "chat_response" } : RouterResult)
      | ParsedRouter.ok i t => routeDispatch (pyUpper (i.getD "CHAT")) (t.getD 0) msg) =
      { next_step := "chat_response" } := by rw [hp]
  exact h2

/-- `router_node` when the brace block parses to an intent and target id. -/
theorem router_node_ok_parsed (content js : String) (i : Option String) (t : Option ℤ)
    (jparse : String → ParsedRouter) (msg : String)
    (hj : jsonBlock (pyStrip content) = some js)
    (hp : jparse js = ParsedRouter.ok i t) :
    router_node (LLMOutcome.ok content) jparse msg =
      routeDispatch (pyUpper (i.getD "CHAT")) (t.getD 0) msg := by
  rw [router_node_ok, hj]
  have h2 : (match jparse js with
      | ParsedRouter.exc => ({ next_step := "chat_response" } : RouterResult)
      | ParsedRouter.ok i t => routeDispatch (pyUpper (i.getD "CHAT")) (t.getD 0) msg) =
      routeDispatch (pyUpper (i.getD "CHAT")) (t.getD 0) msg := by rw [hp]
  exact h2

/-- Every dispatch lands on one of the three step names. -/
theorem dispatchCore_nextStep_cases (intent : String) (target_id : ℤ) :
    (dispatchCore intent target_id).next_step = "recommendation_flow"
      ∨ (dispatchCore intent target_id).next_step = "project_qa_flow"
      ∨ (dispatchCore intent target_id).next_step = "chat_response" := by
  simp only [dispatchCore]
  split_ifs <;> simp

/-- Dispatch reaches the Q&A flow only with a nonzero target id set. -/
theorem dispatchCore_qa_target (intent : String) (target_id : ℤ)
    (h : (dispatchCore intent target_id).next_step = "project_qa_flow") :
    ∃ n : ℤ, (dispatchCore intent target_id).target_project_id = some n ∧ n ≠ 0 := by
  simp only [dispatchCore] at h ⊢
  split_ifs at h ⊢ with h1 h2
  · simp at h
  · exact ⟨target_id, rfl, h2.2⟩
  · simp at h

/-- `routeDispatch` version of the three-way case split. -/
theorem routeDispatch_nextStep_cases (intent : String) (tid0 : ℤ) (msg : String) :
    (routeDispatch intent tid0 msg).next_step = "recommendation_flow"
      ∨ (routeDispatch intent tid0 msg).next_step = "project_qa_flow"
      ∨ (routeDispatch intent tid0 msg).next_step = "chat_response" :=
  dispatchCore_nextStep_cases _ _

/-- `routeDispatch` version of the nonzero-target property. -/
theorem routeDispatch_qa_target (intent : String) (tid0 : ℤ) (msg : String)
    (h : (routeDispatch intent tid0 msg).next_step = "project_qa_flow") :
    ∃ n : ℤ, (routeDispatch intent tid0 msg).target_project_id = some n ∧ n ≠ 0 :=
  dispatchCore_qa_target _ _ h

/-- C6 counterexample: the response `"RECOMMEND \x7boops\x7d"` is not parseable
as structured JSON (its brace block parses to an exception), yet the router
answers `chat_response` directly — the keyword-marker fallback, which would
dispatch the RECOMMEND marker to the recommendation flow, is never applied,
because the fallback only runs when no brace-delimited block exists at all. -/
theorem router_marker_fallback_counterexample :
    jsonBlock (pyStrip "RECOMMEND \x7boops\x7d") = some "\x7boops\x7d"
    ∧ router_node (LLMOutcome.ok "RECOMMEND \x7boops\x7d") (fun _ => ParsedRouter.exc) "hi" =
        { next_step := "chat_response" }
    ∧ kwFallbackIntent (pyStrip "RECOMMEND \x7boops\x7d") = ("RECOMMEND", 0)
    ∧ routeDispatch (pyUpper "RECOMMEND") 0 "hi" = { next_step := "recommendation_flow" }
    ∧ ({ next_step := "chat_response" } : RouterResult) ≠
        { next_step := "recommendation_flow" } := by
  refine ⟨rfl, rfl, by decide, by decide, by decide⟩

/-- C6 (amended): every router run resolves `next_step` to one of the three
defined step names without raising; a classifier exception yields chat; the
keyword-marker fallback is applied exactly when the response contains no
brace-delimited block; and a response whose brace block fails JSON parsing
yields chat directly (the marker fallback is skipped in that case). -/
theorem router_next_step_resolved (llm : LLMOutcome) (jparse : String → ParsedRouter)
    (msg : String) :
    ((router_node llm jparse msg).next_step = "recommendation_flow"
      ∨ (router_node llm jparse msg).next_step = "project_qa_flow"
      ∨ (router_node llm jparse msg).next_step = "chat_response")
    ∧ (llm = LLMOutcome.exc →
        router_node llm jparse msg = { next_step := "chat_response" })
    ∧ (∀ content, llm = LLMOutcome.ok content → jsonBlock (pyStrip content) = none →
        router_node llm jparse msg =
          routeDispatch (pyUpper (kwFallbackIntent (pyStrip content)).1)
            (kwFallbackIntent (pyStrip content)).2 msg)
    ∧ (∀ content js, llm = LLMOutcome.ok content → jsonBlock (pyStrip content) = some js →
        jparse js = ParsedRouter.exc →
        router_node llm jparse msg = { next_step := "chat_response" }) := by
  refine ⟨?_, ?_, ?_, ?_⟩
  · cases llm with
    | exc => exact Or.inr (Or.inr rfl)
    | ok content =>
      cases hj : jsonBlock (pyStrip content) with
      | none =>
        rw [router_node_ok_none content jparse msg hj]
        exact routeDispatch_nextStep_cases _ _ _
      | some js =>
        cases hp : jparse js with
        | exc =>
          rw [router_node_ok_exc content js jparse msg hj hp]
          exact Or.inr (Or.inr rfl)
        | ok i t =>
          rw [router_node_ok_parsed content js i t jparse msg hj hp]
          exact routeDispatch_nextStep_cases _ _ _
  · intro h; subst h; rfl
  · intro content h hj; subst h
    exact router_node_ok_none content jparse msg hj
  · intro content js h hj hp; subst h
    exact router_node_ok_exc content js jparse msg hj hp

/-- Witness for the amended C6 at concrete inputs: an exception yields chat,
a marker-free block-free response goes through the keyword fallback, and a
response with an unparseable brace block yields chat. -/
theorem router_next_step_resolved_witness :
    router_node LLMOutcome.exc (fun _ => ParsedRouter.exc) "m" =
        { next_step := "chat_response" }
    ∧ router_node (LLMOutcome.ok "no markers") (fun _ => ParsedRouter.exc) "m" =
        routeDispatch (pyUpper (kwFallbackIntent (pyStrip "no markers")).1)
          (kwFallbackIntent (pyStrip "no markers")).2 "m"
    ∧ router_node (LLMOutcome.ok "\x7bbad\x7d") (fun _ => ParsedRouter.exc) "m" =
        { next_step := "chat_response" } :=
  ⟨(router_next_step_resolved LLMOutcome.exc (fun _ => ParsedRouter.exc) "m").2.1 rfl,
   (router_next_step_resolved (LLMOutcome.ok "no markers") (fun _ => ParsedRouter.exc)
       "m").2.2.1 "no markers" rfl (by decide),
   (router_next_step_resolved (LLMOutcome.ok "\x7bbad\x7d") (fun _ => ParsedRouter.exc)
       "m").2.2.2 "\x7bbad\x7d" "\x7bbad\x7d" rfl (by decide) rfl⟩

/-- C10: the router dispatches to the project-Q&A flow only with a nonzero
resolved target id, which it stores in `target_project_id`; and when the
classifier reports PROJECT_QA intent with a falsy id and the user message
has no run of three or more digits, the turn is dispatched to chat. -/
theorem router_qa_requires_target (llm : LLMOutcome) (jparse : String → ParsedRouter)
    (msg : String) :
    ((router_node llm jparse msg).next_step = "project_qa_flow" →
      ∃ n : ℤ, (router_node llm jparse msg).target_project_id = some n ∧ n ≠ 0)
    ∧ (∀ content js i t, llm = LLMOutcome.ok content →
        jsonBlock (pyStrip content) = some js → jparse js = ParsedRouter.ok i t →
        pyUpper (i.getD "CHAT") = "PROJECT_QA" → t.getD 0 = 0 →
        findDigitRun msg.data = none →
        router_node llm jparse msg = { next_step := "chat_response" }) := by
  constructor
  · cases llm with
    | exc => intro h; exact absurd h (by simp [router_node])
    | ok content =>
      cases hj : jsonBlock (pyStrip content) with
      | none =>
        rw [router_node_ok_none content jparse msg hj]
        exact routeDispatch_qa_target _ _ _
      | some js =>
        cases hp : jparse js with
        | exc =>
          rw [router_node_ok_exc content js jparse msg hj hp]
          intro h; exact absurd h (by simp)
        | ok i t =>
          rw [router_node_ok_parsed content js i t jparse msg hj hp]
          exact routeDispatch_qa_target _ _ _
  · intro content js i t h hj hp hi ht hfd; subst h
    rw [router_node_ok_parsed content js i t jparse msg hj hp, hi, ht]
    simp [routeDispatch, dispatchCore, hfd]

/-- Witness for C10: a parsed PROJECT_QA intent with id 77 enters the Q&A
flow carrying target 77; a PROJECT_QA intent with no id and a digit-free
message falls back to chat. -/
theorem router_qa_requires_target_witness :
    (∃ n : ℤ, (router_node (LLMOutcome.ok " \x7bx\x7d ")
        (fun _ => ParsedRouter.ok (some "project_qa") (some 77))
        "m").target_project_id = some n ∧ n ≠ 0)
    ∧ router_node (LLMOutcome.ok "\x7by\x7d")
        (fun _ => ParsedRouter.ok (some "PROJECT_QA") none) "no digits here" =
        { next_step := "chat_response" } :=
  ⟨(router_qa_requires_target (LLMOutcome.ok " \x7bx\x7d ")
      (fun _ => ParsedRouter.ok (some "project_qa") (some 77)) "m").1 (by decide),
   (router_qa_requires_target (LLMOutcome.ok "\x7by\x7d")
      (fun _ => ParsedRouter.ok (some "PROJECT_QA") none) "no digits here").2
     "\x7by\x7d" "\x7by\x7d" (some "PROJECT_QA") none rfl (by decide) rfl (by decide)
     (by decide) (by decide)⟩

/-! ## Checkpoint persistence lemmas (C7) -/

/-- Character 10 of a per-checkpoint data key is the first separator colon. -/
theorem data_key_tenth (u : List Char) :
    (['c', 'h', 'e', 'c', 'k', 'p', 'o', 'i', 'n', 't', ':'] ++ u)[10]? = some ':' := by
  rw [List.getElem?_append_left (by decide)]
  decide

/-- Character 10 of a latest-pointer key is the underscore of `_latest`. -/
theorem latest_key_tenth (u : List Char) :
    (['c', 'h', 'e', 'c', 'k', 'p', 'o', 'i', 'n', 't', '_', 'l', 'a', 't', 'e', 's',
        't', ':'] ++ u)[10]? = some '_' := by
  rw [List.getElem?_append_left (by decide)]
  decide

/-- A per-checkpoint data key never collides with a latest-pointer key. -/
theorem checkpoint_key_ne_latest (t c : String) :
    "checkpoint:" ++ t ++ ":" ++ c ≠ "checkpoint_latest:" ++ t := by
  intro h
  have hd := congrArg String.data h
  simp only [String.data_append, List.append_assoc] at hd
  have h10 := congrArg (fun l : List Char => l[10]?) hd
  simp only [data_key_tenth, latest_key_tenth] at h10
  exact absurd h10 (by decide)

/-- C7 counterexample: with the empty (falsy) thread id, `put` completes and
returns the updated config — success — and the pickled tuple is present in
the store under its data key, yet `get_tuple` on the same thread returns
nothing, because it treats a falsy thread id as missing. -/
theorem pickle_redis_empty_thread_counterexample :
    (PickleRedisSaver.put (σ := ℕ) (μ := ℕ) (fun _ => none) { thread_id := "" }
        { id := "c1", channel_values := 42 } 0).2 =
      { thread_id := "", checkpoint_id := some "c1" }
    ∧ (PickleRedisSaver.put (σ := ℕ) (μ := ℕ) (fun _ => none) { thread_id := "" }
        { id := "c1", channel_values := 42 } 0).1 ("checkpoint:" ++ "" ++ ":" ++ "c1") =
      some (RVal.rblob { thread_id := "", checkpoint_id := "c1",
                         checkpoint := { id := "c1", channel_values := 42 },
                         metadata := 0, parent_checkpoint_id := none })
    ∧ PickleRedisSaver.get_tuple
        (PickleRedisSaver.put (σ := ℕ) (μ := ℕ) (fun _ => none) { thread_id := "" }
          { id := "c1", channel_values := 42 } 0).1 { thread_id := "" } = none :=
  ⟨rfl, rfl, rfl⟩

/-- C7 (amended): for every thread with a truthy (nonempty) id, after `put`
writes checkpoint S, `get_tuple` on the same thread with no checkpoint id
resolves through the latest pointer and returns the tuple holding S. -/
theorem pickle_redis_put_get (σ μ : Type) (db : Redis σ μ) (config : RunnableConfig)
    (ckpt : Checkpoint σ) (meta : μ) (h : config.thread_id ≠ "") :
    PickleRedisSaver.get_tuple (PickleRedisSaver.put db config ckpt meta).1
        { thread_id := config.thread_id } =
      some { thread_id := config.thread_id, checkpoint_id := ckpt.id,
             checkpoint := ckpt, metadata := meta,
             parent_checkpoint_id := truthyStr config.checkpoint_id } := by
  simp [PickleRedisSaver.put, PickleRedisSaver.get_tuple, redisSet, truthyStr, h,
    checkpoint_key_ne_latest config.thread_id ckpt.id]

/-- Witness for the amended C7: a concrete put/get round trip on thread
`"t1"` returns the stored checkpoint. -/
theorem pickle_redis_put_get_witness :
    PickleRedisSaver.get_tuple
        (PickleRedisSaver.put (σ := ℕ) (μ := ℕ) (fun _ => none) { thread_id := "t1" }
          { id := "c1", channel_values := 42 } 7).1 { thread_id := "t1" } =
      some { thread_id := "t1", checkpoint_id := "c1",
             checkpoint := { id := "c1", channel_values := 42 }, metadata := 7,
             parent_checkpoint_id := none } :=
  pickle_redis_put_get ℕ ℕ (fun _ => none) { thread_id := "t1" }
    { id := "c1", channel_values := 42 } 7 (by decide)

/-! ## Project Q&A context (C8) and history deletion (C9) -/

/-- C8: code bug — the retrieval tools key their result dicts by `str(pid)`
while `project_qa_node` looks the chunks up under the integer `target_id`,
so the lookup always misses: on the failing input, the raw-document store
returns a chunk for project 123 and the chunk dict holds it under the
string key "123", yet the integer-keyed lookup finds nothing, the summary
fallback (also string-keyed) finds nothing either, and the generated
context is the placeholder text instead of the retrieved chunks. -/
theorem project_qa_context_key_mismatch :
    retrieve_project_chunks rawStoreEx [123] "q" = [(PyKey.pstr "123", ["FACTS"])]
    ∧ assocLookup (retrieve_project_chunks rawStoreEx [123] "q") (PyKey.pint 123) = none
    ∧ retrieve_project_summary sumStoreEx [123] "q" = [(PyKey.pstr "123", [])]
    ∧ project_qa_retrieve rawStoreEx sumStoreEx 123 "q" =
        ("Project Summary", "No specific documents or summaries found for this project.") := by
  refine ⟨by decide, by decide, by decide, by decide⟩

/-- Deleting rows of thread A leaves the rows of any other thread B intact. -/
theorem filter_ne_filter_eq (l : List CkptRow) (A B : String) (h : B ≠ A) :
    ((l.filter fun r => r.thread_id ≠ A).filter fun r => r.thread_id = B) =
      l.filter fun r => r.thread_id = B := by
  rw [List.filter_filter]
  refine List.filter_congr ?_
  intro r _
  by_cases hr : r.thread_id = B
  · simp [hr, h]
  · simp [hr]

/-- C9: history deletion for thread A removes every row of A from all three
checkpoint tables as one transaction: on success no row of A remains in any
table, and for every other thread B the rows of B are exactly preserved; a
failure of any statement rolls the whole deletion back (the database is
unchanged) and is reported as an error. -/
theorem delete_chat_history_atomic (db : PgDB) (A : String) (txFails : Bool) :
    (txFails = false →
      (delete_chat_history db A txFails).2 = true
      ∧ (∀ r ∈ (delete_chat_history db A txFails).1.checkpoints, r.thread_id ≠ A)
      ∧ (∀ r ∈ (delete_chat_history db A txFails).1.checkpoint_blobs, r.thread_id ≠ A)
      ∧ (∀ r ∈ (delete_chat_history db A txFails).1.checkpoint_writes, r.thread_id ≠ A)
      ∧ (∀ B, B ≠ A →
          ((delete_chat_history db A txFails).1.checkpoints.filter
                fun r => r.thread_id = B) =
              db.checkpoints.filter (fun r => r.thread_id = B)
            ∧ ((delete_chat_history db A txFails).1.checkpoint_blobs.filter
                fun r => r.thread_id = B) =
              db.checkpoint_blobs.filter (fun r => r.thread_id = B)
            ∧ ((delete_chat_history db A txFails).1.checkpoint_writes.filter
                fun r => r.thread_id = B) =
              db.checkpoint_writes.filter (fun r => r.thread_id = B)))
    ∧ (txFails = true → delete_chat_history db A txFails = (db, false)) := by
  constructor
  · intro hf; subst hf
    refine ⟨rfl, ?_, ?_, ?_, ?_⟩
    · intro r hr
      exact of_decide_eq_true (List.mem_filter.mp hr).2
    · intro r hr
      exact of_decide_eq_true (List.mem_filter.mp hr).2
    · intro r hr
      exact of_decide_eq_true (List.mem_filter.mp hr).2
    · intro B hB
      exact ⟨filter_ne_filter_eq _ _ _ hB, filter_ne_filter_eq _ _ _ hB,
        filter_ne_filter_eq _ _ _ hB⟩
  · intro ht; subst ht; rfl

/-- Witness for C9 on a concrete two-thread database: success reports ok and
preserves thread `"b"` rows exactly; an injected failure leaves the database
unchanged and reports an error. -/
theorem delete_chat_history_atomic_witness :
    (delete_chat_history pgDBEx "a" false).2 = true
    ∧ ((delete_chat_history pgDBEx "a" false).1.checkpoints.filter
          fun r => r.thread_id = "b") =
        pgDBEx.checkpoints.filter (fun r => r.thread_id = "b")
    ∧ delete_chat_history pgDBEx "a" true = (pgDBEx, false) := by
  have h := delete_chat_history_atomic pgDBEx "a" false
  have h2 := delete_chat_history_atomic pgDBEx "a" true
  exact ⟨(h.1 rfl).1, ((h.1 rfl).2.2.2.2 "b" (by decide)).1, h2.2 rfl⟩

end LangchainAgent
